import Mathlib

set_option maxRecDepth 100000

/-!
Verification development for the ZeroTier `Identity` type
(`src/node/Identity.hpp`).

Only the class header is available: the inline members (comparison
operators, `hashCode`, `operator bool`, the default constructor, the
marshal-size constants) are embedded directly from the source.  The
out-of-line member bodies (`marshal`, `unmarshal`, `sign`, `verify`,
`agree`, `toString`, `fromString`, `locallyValidate`, `hashWithPrivate`)
and the supporting headers (`Fingerprint.hpp`, `C25519.hpp`,
`ECC384.hpp`, `Constants.hpp`) are not part of the sources, so those
parts are modelled from the specification, as indicated by the
`Modelled from the spec:` doc comments.  Cryptographic primitives are
modelled as ideal deterministic schemes (discrete-log key agreement
over a concrete modulus, signatures as key-tagged pairings of public
key and message): the dispatch structure around them follows the
specification's wording exactly.

Bytes are `Nat` values `< 256`; buffers are `List Nat`.
-/

namespace ZeroTier

/-! ### Protocol size constants

Modelled from the spec: the numeric key sizes come from `Constants.hpp`
/ `C25519.hpp` / `ECC384.hpp`, which are not in the sources; the values
below are the protocol constants those headers define
(`ZT_ADDRESS_LENGTH = 5`, Curve25519+Ed25519 public and private keys of
64 bytes, NIST P-384 public key 49 bytes, private key 48 bytes, 384-bit
hashes).  The compound and maximum sizes are the formulas from
`Identity.hpp` lines 31-33. -/

def ZT_ADDRESS_LENGTH : Nat := 5
def ZT_C25519_PUBLIC_KEY_LEN : Nat := 64
def ZT_C25519_PRIVATE_KEY_LEN : Nat := 64
def ZT_ECC384_PUBLIC_KEY_SIZE : Nat := 49
def ZT_ECC384_PRIVATE_KEY_SIZE : Nat := 48
def ZT_IDENTITY_HASH_SIZE : Nat := 48
def ZT_PEER_SECRET_KEY_LENGTH : Nat := 48

/-- `ZT_IDENTITY_P384_COMPOUND_PUBLIC_KEY_SIZE` from `Identity.hpp` line 31:
`1 + ZT_C25519_PUBLIC_KEY_LEN + ZT_ECC384_PUBLIC_KEY_SIZE`. -/
def ZT_IDENTITY_P384_COMPOUND_PUBLIC_KEY_SIZE : Nat :=
  1 + ZT_C25519_PUBLIC_KEY_LEN + ZT_ECC384_PUBLIC_KEY_SIZE

/-- `ZT_IDENTITY_P384_COMPOUND_PRIVATE_KEY_SIZE` from `Identity.hpp` line 32:
`ZT_C25519_PRIVATE_KEY_LEN + ZT_ECC384_PRIVATE_KEY_SIZE`. -/
def ZT_IDENTITY_P384_COMPOUND_PRIVATE_KEY_SIZE : Nat :=
  ZT_C25519_PRIVATE_KEY_LEN + ZT_ECC384_PRIVATE_KEY_SIZE

/-- `ZT_IDENTITY_MARSHAL_SIZE_MAX` from `Identity.hpp` line 33:
`ZT_ADDRESS_LENGTH + 4 + compound public size + compound private size`. -/
def ZT_IDENTITY_MARSHAL_SIZE_MAX : Nat :=
  ZT_ADDRESS_LENGTH + 4 + ZT_IDENTITY_P384_COMPOUND_PUBLIC_KEY_SIZE
    + ZT_IDENTITY_P384_COMPOUND_PRIVATE_KEY_SIZE

/-! ### Byte-buffer utilities -/

/-- Big-endian encoding of `x` into exactly `n` bytes (truncating above
`256 ^ n`). -/
def natToBytesBE : Nat → Nat → List Nat
  | 0, _ => []
  | n + 1, x => natToBytesBE n (x / 256) ++ [x % 256]

/-- Big-endian decoding of a byte buffer into a `Nat`. -/
def bytesToNat (bs : List Nat) : Nat :=
  bs.foldl (fun a b => a * 256 + b) 0

theorem length_natToBytesBE (n x : Nat) : (natToBytesBE n x).length = n := by
  induction n generalizing x with
  | zero => rfl
  | succ n ih => simp [natToBytesBE, ih]

theorem bytesToNat_append_singleton (l : List Nat) (b : Nat) :
    bytesToNat (l ++ [b]) = bytesToNat l * 256 + b := by
  simp [bytesToNat, List.foldl_append]

theorem bytesToNat_natToBytesBE (n x : Nat) :
    bytesToNat (natToBytesBE n x) = x % 256 ^ n := by
  induction n generalizing x with
  | zero => simp [natToBytesBE, bytesToNat, Nat.mod_one]
  | succ n ih =>
      rw [natToBytesBE, bytesToNat_append_singleton, ih]
      have h1 : (256 : Nat) ^ (n + 1) = 256 * 256 ^ n := by ring
      have h2 : x / 256 % 256 ^ n = x % (256 * 256 ^ n) / 256 :=
        (Nat.mod_mul_right_div_self x 256 (256 ^ n)).symm
      have h3 : x % 256 = x % (256 * 256 ^ n) % 256 :=
        (Nat.mod_mod_of_dvd x ⟨256 ^ n, rfl⟩).symm
      rw [h1, h2, h3]
      omega

theorem natToBytesBE_lt (n x : Nat) : ∀ b ∈ natToBytesBE n x, b < 256 := by
  induction n generalizing x with
  | zero => simp [natToBytesBE]
  | succ n ih =>
      intro b hb
      rw [natToBytesBE] at hb
      rcases List.mem_append.mp hb with h | h
      · exact ih _ _ h
      · simp only [List.mem_singleton] at h
        subst h
        exact Nat.mod_lt _ (by norm_num)

theorem bytesToNat_replicate_zero (n : Nat) :
    bytesToNat (List.replicate n 0) = 0 := by
  induction n with
  | zero => rfl
  | succ n ih =>
      have : List.replicate (n + 1) 0 = List.replicate n 0 ++ [0] := by
        rw [List.replicate_succ']
      rw [this, bytesToNat_append_singleton, ih]

/-- If an `n`-byte big-endian encoding is all zero then the encoded value
was `0` modulo `256 ^ n`. -/
theorem natToBytesBE_eq_replicate_zero {n x : Nat}
    (h : natToBytesBE n x = List.replicate n 0) : x % 256 ^ n = 0 := by
  have := congrArg bytesToNat h
  rwa [bytesToNat_natToBytesBE, bytesToNat_replicate_zero] at this

/-! ### Modular exponentiation (executable) -/

/-- Fast modular exponentiation by squaring, structurally recursive on a
fuel argument so that it reduces definitionally (the fuel is an upper
bound on the exponent). -/
def powModAux : Nat → Nat → Nat → Nat → Nat
  | 0, _, _, m => 1 % m
  | fuel + 1, b, e, m =>
      if e = 0 then 1 % m
      else
        let h := powModAux fuel (b * b % m) (e / 2) m
        if e % 2 = 1 then h * b % m else h

/-- Modular exponentiation, used by the idealized Diffie-Hellman model
of the key-agreement primitives. -/
def powMod (b e m : Nat) : Nat := powModAux e b e m

theorem powModAux_eq (fuel : Nat) : ∀ b e m : Nat, e ≤ fuel →
    powModAux fuel b e m = b ^ e % m := by
  induction fuel with
  | zero =>
      intro b e m he
      have : e = 0 := Nat.le_zero.mp he
      subst this
      simp [powModAux]
  | succ fuel ih =>
      intro b e m he
      rw [powModAux]
      by_cases he0 : e = 0
      · simp [he0]
      · simp only [he0, if_false]
        have hfuel : e / 2 ≤ fuel := by omega
        rw [ih _ _ _ hfuel]
        have hsq : (b * b % m) ^ (e / 2) % m = (b * b) ^ (e / 2) % m := by
          rw [← Nat.pow_mod]
        rw [hsq]
        have hbb : (b * b) ^ (e / 2) = b ^ (2 * (e / 2)) := by
          rw [mul_pow, ← pow_add, two_mul]
        by_cases hodd : e % 2 = 1
        · simp only [hodd, if_true]
          have he2 : e = 2 * (e / 2) + 1 := by omega
          rw [hbb]
          conv_rhs => rw [he2, pow_succ]
          rw [Nat.mod_mul_mod]
        · simp only [hodd, if_false]
          have he2 : e = 2 * (e / 2) := by omega
          rw [hbb, ← he2]

theorem powMod_eq (b e m : Nat) : powMod b e m = b ^ e % m :=
  powModAux_eq e b e m (Nat.le_refl e)

/-! ### Model digest

Modelled from the spec: `SHA512.hpp` is not in the sources.  SHA384 and
the expensive address-derivation mixing function are stand-ins: a
deterministic 48-byte (384-bit) digest built from a seeded 64-bit fold
over the input bytes.  Only determinism and executability are used by
the theorems. -/

def hashAcc (bs : List Nat) (seed : Nat) : Nat :=
  bs.foldl (fun h b => ((h + b + 1) * 1099511628211) % 18446744073709551616)
    (seed * 2654435761 + 14695981039346656037 % 18446744073709551616)

/-- 48-byte model digest: six seeded 64-bit words, big-endian. -/
def modelDigest (bs : List Nat) : List Nat :=
  natToBytesBE 8 (hashAcc bs 0) ++ natToBytesBE 8 (hashAcc bs 1) ++
  natToBytesBE 8 (hashAcc bs 2) ++ natToBytesBE 8 (hashAcc bs 3) ++
  natToBytesBE 8 (hashAcc bs 4) ++ natToBytesBE 8 (hashAcc bs 5)

theorem length_modelDigest (bs : List Nat) : (modelDigest bs).length = 48 := by
  simp [modelDigest, length_natToBytesBE]

/-! ### Identity type tag -/

/-- `Identity::Type` (`Identity.hpp` lines 55-59): type 0 (`C25519`,
Curve25519/Ed25519 only) and type 1 (`P384`, adds NIST P-384). -/
inductive IdType where
  | c25519 : IdType
  | p384 : IdType
deriving DecidableEq, Repr

/-- Numeric protocol value of the type tag (`ZT_CRYPTO_ALG_C25519 = 0`,
`ZT_CRYPTO_ALG_P384 = 1`). -/
def typeCode : IdType → Nat
  | .c25519 => 0
  | .p384 => 1

/-! ### Fingerprint

Modelled from the spec: `Fingerprint.hpp` is not in the sources.  The
spec (section 3) describes the fingerprint as "a 384-bit digest of the
public key material plus the address; used for equality, ordering, and
hashing of Identity values".  It is modelled as the pair of the address
and the 48-byte digest, ordered lexicographically (address first), with
`hashCode` the first eight digest bytes read as a 64-bit integer. -/

structure Fingerprint where
  fpAddress : Nat
  hash : List Nat
deriving DecidableEq, Repr

/-- Strict lexicographic order on byte buffers. -/
def bytesLt : List Nat → List Nat → Bool
  | [], [] => false
  | [], _ :: _ => true
  | _ :: _, [] => false
  | a :: as, b :: bs => a < b || (a == b && bytesLt as bs)

/-- Modelled from the spec: `Fingerprint::operator<` — address first,
then the digest bytes lexicographically. -/
def fpLt (a b : Fingerprint) : Bool :=
  a.fpAddress < b.fpAddress
    || (a.fpAddress == b.fpAddress && bytesLt a.hash b.hash)

/-- Modelled from the spec: `Fingerprint::hashCode` — first eight digest
bytes as an integer. -/
def fpHashCode (f : Fingerprint) : Nat :=
  bytesToNat (f.hash.take 8)

/-! ### The Identity record

Field-for-field embedding of the private data of `class Identity`
(`Identity.hpp` lines 217-232): `_address`, `_fp`, the private key
struct `{c25519[64], p384[48]}`, the public key struct
`{nonce, c25519[64], p384[49]}`, `_type` and `_hasPrivate`. -/

structure Identity where
  address : Nat
  fp : Fingerprint
  privC25519 : List Nat
  privP384 : List Nat
  pubNonce : Nat
  pubC25519 : List Nat
  pubP384 : List Nat
  idType : IdType
  hasPrivate : Bool
deriving DecidableEq, Repr

/-- The nil identity: `Identity()` calls `memoryZero(this)`
(`Identity.hpp` line 66), so every field is zero (type tag 0 =
`C25519`, `hasPrivate` false). -/
def nilIdentity : Identity where
  address := 0
  fp := { fpAddress := 0, hash := List.replicate 48 0 }
  privC25519 := List.replicate 64 0
  privP384 := List.replicate 48 0
  pubNonce := 0
  pubC25519 := List.replicate 64 0
  pubP384 := List.replicate 49 0
  idType := .c25519
  hasPrivate := false

/-! ### Inline comparison operators (from the source)

`Identity.hpp` lines 202-211: `operator bool` is `(_address)`;
`operator==` is `_fp == id._fp`; `operator<` is `_fp < id._fp`;
`>`/`<=`/`>=` are derived by argument swap and negation; `hashCode` is
`_fp.hashCode()`. -/

def idBool (a : Identity) : Bool := decide (a.address ≠ 0)

def idEq (a b : Identity) : Bool := decide (a.fp = b.fp)

def idNe (a b : Identity) : Bool := !(idEq a b)

def idLt (a b : Identity) : Bool := fpLt a.fp b.fp

def idGt (a b : Identity) : Bool := idLt b a

def idLe (a b : Identity) : Bool := !(idLt b a)

def idGe (a b : Identity) : Bool := !(idLt a b)

def idHashCode (a : Identity) : Nat := fpHashCode a.fp

/-! ### Idealized cryptographic primitives

Modelled from the spec: `C25519.hpp` and `ECC384.hpp` are not in the
sources.  Key agreement is modelled as textbook Diffie-Hellman in a
concrete modular-exponentiation group per cryptosystem (public key =
`g ^ priv mod m`, shared value = `pub ^ priv mod m`), which gives the
symmetry the spec asserts.  Signatures are modelled as ideal
deterministic schemes: a signature is the cryptosystem tag followed by
the signer's public key and the message, and verification succeeds
exactly on that byte string (and never for an all-zero public key,
since per the spec a nil identity must never verify). -/

def c25519G : Nat := 3

def c25519M : Nat := 2305843009213693951

def ecc384G : Nat := 7

def ecc384M : Nat := 618970019642690137449562111

/-- Curve25519 public key derived from a private key (idealized). -/
def c25519KeyDerive (priv : List Nat) : List Nat :=
  natToBytesBE ZT_C25519_PUBLIC_KEY_LEN (powMod c25519G (bytesToNat priv) c25519M)

/-- P-384 public key derived from a private key (idealized). -/
def ecc384KeyDerive (priv : List Nat) : List Nat :=
  natToBytesBE ZT_ECC384_PUBLIC_KEY_SIZE (powMod ecc384G (bytesToNat priv) ecc384M)

/-- Curve25519 ECDH shared value (idealized). -/
def c25519SharedSecret (priv pub : List Nat) : Nat :=
  powMod (bytesToNat pub) (bytesToNat priv) c25519M

/-- P-384 ECDH shared value (idealized). -/
def ecc384SharedSecret (priv pub : List Nat) : Nat :=
  powMod (bytesToNat pub) (bytesToNat priv) ecc384M

/-! ### Fingerprint and address derivation

Modelled from the spec: `Identity.hpp` lines 116-127 describe the
fingerprint hash — for type 0 a digest of the C25519 public key alone,
for type 1 the compound digest over both public keys (with the leading
nonce byte of the packed `_pub` struct) that is also used for address
computation. -/

def computeFingerprint (t : IdType) (addr nonce : Nat)
    (pubC pubP : List Nat) : Fingerprint where
  fpAddress := addr
  hash :=
    match t with
    | .c25519 => modelDigest pubC
    | .p384 => modelDigest (nonce :: (pubC ++ pubP))

/-- Modelled from the spec: the reserved leading address byte is "an
external protocol constant to be supplied" (spec section 9); `0xff` is
used here. -/
def reservedAddrByte : Nat := 255

/-- Spec section 3: an address is invalid if it is all-zero or its
leading byte is reserved.  The leading byte of a 40-bit address is its
quotient by `2 ^ 32`. -/
def isValidAddress (a : Nat) : Prop :=
  a ≠ 0 ∧ a / 4294967296 ≠ reservedAddrByte

instance (a : Nat) : Decidable (isValidAddress a) := by
  unfold isValidAddress
  infer_instance

/-- Modelled from the spec: the "deterministic, intentionally expensive
mixing function" applied to the first digest during legacy address
derivation (spec section 4.2, step 2c); a stand-in second digest pass. -/
def addrMix (bs : List Nat) : List Nat := modelDigest (90 :: bs)

/-- Address recomputed from public key material (spec section 4.2): for
`Legacy`, digest of `{nonce, legacy public key}` then the mixing
function, first five bytes; for `Hybrid`, first five bytes of the
compound digest. -/
def derivedAddress (t : IdType) (nonce : Nat) (pubC pubP : List Nat) : Nat :=
  match t with
  | .c25519 => bytesToNat ((addrMix (modelDigest (nonce :: pubC))).take 5)
  | .p384 => bytesToNat ((modelDigest (nonce :: (pubC ++ pubP))).take 5)

/-- Modelled from the spec: the legacy computational-binding (hashcash)
predicate on the mixed digest; the threshold is a protocol constant,
`17` here.  Trivially true for `Hybrid` (no mining loop). -/
def powCriterion (t : IdType) (nonce : Nat) (pubC : List Nat) : Bool :=
  match t with
  | .c25519 => decide ((addrMix (modelDigest (nonce :: pubC))).headD 255 < 17)
  | .p384 => true

/-- Modelled from the spec: `Identity::locallyValidate`
(`Identity.hpp` line 108) "recomputes the address from the stored
public key material ... and returns whether it matches the stored
address" (spec section 4.2), rejecting invalid (zero / reserved)
addresses. -/
def locallyValidate (id : Identity) : Bool :=
  decide (isValidAddress id.address)
    && powCriterion id.idType id.pubNonce id.pubC25519
    && decide (derivedAddress id.idType id.pubNonce id.pubC25519 id.pubP384
                = id.address)

/-- Modelled from the spec: `Identity::hashWithPrivate`
(`Identity.hpp` lines 129-136): a digest of the public and private
keys; "if there is no private key or the identity is NIL the buffer is
filled with zero". -/
def hashWithPrivate (id : Identity) : List Nat :=
  if id.hasPrivate && idBool id then
    modelDigest ((id.pubNonce :: (id.pubC25519 ++ id.pubP384))
      ++ (id.privC25519 ++ id.privP384))
  else
    List.replicate ZT_IDENTITY_HASH_SIZE 0

/-! ### Signing and verification

Modelled from the spec: `Identity::sign` / `Identity::verify`
(`Identity.hpp` lines 150, 161).  Spec section 4.3: `Legacy` signs with
the legacy algorithm, `Hybrid` signs with the second cryptosystem;
`sign` returns 0 when `hasPrivate` is false or the buffer is smaller
than the signature; `verify` dispatches by the identity's type and
returns false on any mismatch. -/

def signBytes (id : Identity) (data : List Nat) : List Nat :=
  match id.idType with
  | .c25519 => 0 :: (c25519KeyDerive id.privC25519 ++ data)
  | .p384 => 1 :: (ecc384KeyDerive id.privP384 ++ data)

/-- `sign`: returns the number of signature bytes written and the
signature, or `(0, [])` on error. -/
def signId (id : Identity) (data : List Nat) (siglen : Nat) : Nat × List Nat :=
  if id.hasPrivate = false then (0, [])
  else
    let sig := signBytes id data
    if siglen < sig.length then (0, []) else (sig.length, sig)

/-- `verify`: true exactly when the signature is the ideal signature of
the data under this identity's (nonzero) public key for its declared
type. -/
def verifyId (id : Identity) (data sig : List Nat) : Bool :=
  match id.idType with
  | .c25519 =>
      decide (id.pubC25519 ≠ List.replicate 64 0
        ∧ sig = 0 :: (id.pubC25519 ++ data))
  | .p384 =>
      decide (id.pubP384 ≠ List.replicate 49 0
        ∧ sig = 1 :: (id.pubP384 ++ data))

/-! ### Key agreement

Modelled from the spec: `Identity::agree` (`Identity.hpp` line 172).
Spec section 4.4: requires `self.hasPrivate`; always computes the
legacy DH value from self's legacy private key and the peer's legacy
public key; when both identities are `Hybrid` it additionally computes
the second cryptosystem's shared value and combines both through a
key-derivation hash; otherwise the secret is the legacy value alone. -/

/-- The legacy-only shared secret: a function of self's legacy private
key and the peer's legacy public key only. -/
def legacySecret (a b : Identity) : List Nat :=
  natToBytesBE ZT_PEER_SECRET_KEY_LENGTH
    (c25519SharedSecret a.privC25519 b.pubC25519)

def agreeId (a b : Identity) : Option (List Nat) :=
  if a.hasPrivate = false then none
  else
    match a.idType, b.idType with
    | .p384, .p384 =>
        some (modelDigest
          (natToBytesBE ZT_PEER_SECRET_KEY_LENGTH
              (c25519SharedSecret a.privC25519 b.pubC25519)
            ++ natToBytesBE ZT_PEER_SECRET_KEY_LENGTH
              (ecc384SharedSecret a.privP384 b.pubP384)))
    | _, _ => some (legacySecret a b)

/-! ### Binary codec

Modelled from the spec: `Identity::marshal` / `Identity::unmarshal`
(`Identity.hpp` lines 214-215).  Spec sections 4.5 and 6: fixed field
order `[address:5][type+flags:1][legacy_public][hybrid_public?]
[legacy_private?][hybrid_private?]`; the public field serializes the
packed `_pub` struct prefix relevant to the type (leading nonce byte,
then the C25519 key, then for `Hybrid` the P-384 key); presence of the
private fields is determined by the type/flags byte (bit `0x80`) and
the caller's `includePrivate` flag; `unmarshal` rejects truncation,
unknown type values and any length mismatch with a nil result. -/

def typeFlagsByte (id : Identity) (includePrivate : Bool) : Nat :=
  typeCode id.idType + (if includePrivate && id.hasPrivate then 128 else 0)

def pubFieldEnc (id : Identity) : List Nat :=
  match id.idType with
  | .c25519 => id.pubNonce :: id.pubC25519
  | .p384 => id.pubNonce :: (id.pubC25519 ++ id.pubP384)

def privFieldEnc (id : Identity) (includePrivate : Bool) : List Nat :=
  if includePrivate && id.hasPrivate then
    match id.idType with
    | .c25519 => id.privC25519
    | .p384 => id.privC25519 ++ id.privP384
  else []

def marshal (id : Identity) (includePrivate : Bool) : List Nat :=
  natToBytesBE ZT_ADDRESS_LENGTH id.address
    ++ typeFlagsByte id includePrivate
      :: (pubFieldEnc id ++ privFieldEnc id includePrivate)

def unmarshal (bs : List Nat) : Option Identity :=
  if bs.length < 6 then none
  else
    let addr := bytesToNat (bs.take 5)
    let flags := (bs.drop 5).headD 0
    let hp : Bool := decide (128 ≤ flags)
    let body := bs.drop 6
    if flags % 128 = 0 then
      if body.length = 65 + (if hp then 64 else 0) then
        let nonce := body.headD 0
        let pubC := (body.drop 1).take 64
        some { address := addr,
               fp := computeFingerprint .c25519 addr nonce pubC
                 (List.replicate 49 0),
               privC25519 :=
                 if hp then (body.drop 65).take 64 else List.replicate 64 0,
               privP384 := List.replicate 48 0,
               pubNonce := nonce,
               pubC25519 := pubC,
               pubP384 := List.replicate 49 0,
               idType := .c25519,
               hasPrivate := hp }
      else none
    else if flags % 128 = 1 then
      if body.length = 114 + (if hp then 112 else 0) then
        let nonce := body.headD 0
        let pubC := (body.drop 1).take 64
        let pubP := (body.drop 65).take 49
        some { address := addr,
               fp := computeFingerprint .p384 addr nonce pubC pubP,
               privC25519 :=
                 if hp then (body.drop 114).take 64 else List.replicate 64 0,
               privP384 :=
                 if hp then (body.drop 178).take 48 else List.replicate 48 0,
               pubNonce := nonce,
               pubC25519 := pubC,
               pubP384 := pubP,
               idType := .p384,
               hasPrivate := hp }
      else none
    else none

/-! ### List slicing helpers -/

theorem take_append_len {α : Type} (a b : List α) (n : Nat)
    (h : a.length = n) : (a ++ b).take n = a := by
  subst h
  induction a with
  | nil => rfl
  | cons x xs ih => simp [ih]

theorem drop_append_len {α : Type} (a b : List α) (n : Nat)
    (h : a.length = n) : (a ++ b).drop n = b := by
  subst h
  induction a with
  | nil => rfl
  | cons x xs ih => simp [ih]

theorem drop_append_len_add {α : Type} (a b : List α) (n k : Nat)
    (h : a.length = n) : (a ++ b).drop (n + k) = b.drop k := by
  subst h
  induction a with
  | nil => simp
  | cons x xs ih =>
      have : (x :: xs).length + k = (xs.length + k) + 1 := by
        simp [Nat.succ_add]
      rw [this]
      simp [ih]

/-! ### Text codec

Modelled from the spec: `Identity::toString` / `Identity::fromString`
(`Identity.hpp` lines 186, 197).  Spec sections 4.5 and 6: a canonical
colon-delimited, case-sensitive text form
`addressHex : type : publicHex [ : privateHex ]` with a stable field
order (lower-case hex), the private field present only when requested
and available; `fromString` yields the nil identity (here `none`) on
any malformed text and performs no cryptographic validation. -/

def hexDigitChar (n : Nat) : Char :=
  if n < 10 then Char.ofNat (48 + n) else Char.ofNat (87 + n)

def bytesToHex : List Nat → List Char
  | [] => []
  | b :: bs => hexDigitChar (b / 16) :: hexDigitChar (b % 16) :: bytesToHex bs

def hexVal (c : Char) : Option Nat :=
  if 48 ≤ c.toNat ∧ c.toNat ≤ 57 then some (c.toNat - 48)
  else if 97 ≤ c.toNat ∧ c.toNat ≤ 102 then some (c.toNat - 87)
  else none

def hexToBytes : List Char → Option (List Nat)
  | [] => some []
  | [_] => none
  | c1 :: c2 :: rest =>
      match hexVal c1, hexVal c2, hexToBytes rest with
      | some h, some l, some bs => some ((h * 16 + l) :: bs)
      | _, _, _ => none

theorem length_bytesToHex (bs : List Nat) :
    (bytesToHex bs).length = 2 * bs.length := by
  induction bs with
  | nil => rfl
  | cons b bs ih => simp [bytesToHex, ih]; ring

theorem hexVal_hexDigitChar {d : Nat} (h : d < 16) :
    hexVal (hexDigitChar d) = some d := by
  interval_cases d <;> rfl

theorem hexToBytes_bytesToHex (bs : List Nat) (h : ∀ b ∈ bs, b < 256) :
    hexToBytes (bytesToHex bs) = some bs := by
  induction bs with
  | nil => rfl
  | cons b bs ih =>
      have hb : b < 256 := h b (by simp)
      have h1 : b / 16 < 16 := by omega
      have h2 : b % 16 < 16 := by omega
      rw [bytesToHex, hexToBytes, hexVal_hexDigitChar h1, hexVal_hexDigitChar h2,
        ih (fun x hx => h x (by simp [hx]))]
      have hb16 : b / 16 * 16 + b % 16 = b := by omega
      show some ((b / 16 * 16 + b % 16) :: bs) = some (b :: bs)
      rw [hb16]

def typeCharOf : IdType → Char
  | .c25519 => '0'
  | .p384 => '1'

def toStringId (id : Identity) (includePrivate : Bool) : List Char :=
  bytesToHex (natToBytesBE ZT_ADDRESS_LENGTH id.address)
    ++ ':' :: typeCharOf id.idType :: ':'
      :: (bytesToHex (pubFieldEnc id)
        ++ (if includePrivate && id.hasPrivate then
              ':' :: bytesToHex (privFieldEnc id includePrivate)
            else []))

def fromStringId (s : List Char) : Option Identity :=
  if s.length < 13 then none
  else if (s.drop 10).headD 'x' ≠ ':' ∨ (s.drop 12).headD 'x' ≠ ':' then none
  else
    match hexToBytes (s.take 10) with
    | none => none
    | some addrB =>
      let addr := bytesToNat addrB
      let tch := (s.drop 11).headD 'x'
      let rest := s.drop 13
      if tch = '0' then
        if rest.length = 130 then
          match hexToBytes rest with
          | some pb =>
              some { address := addr,
                     fp := computeFingerprint .c25519 addr (pb.headD 0)
                       ((pb.drop 1).take 64) (List.replicate 49 0),
                     privC25519 := List.replicate 64 0,
                     privP384 := List.replicate 48 0,
                     pubNonce := pb.headD 0,
                     pubC25519 := (pb.drop 1).take 64,
                     pubP384 := List.replicate 49 0,
                     idType := .c25519,
                     hasPrivate := false }
          | none => none
        else if rest.length = 259 ∧ (rest.drop 130).headD 'x' = ':' then
          match hexToBytes (rest.take 130), hexToBytes (rest.drop 131) with
          | some pb, some vb =>
              some { address := addr,
                     fp := computeFingerprint .c25519 addr (pb.headD 0)
                       ((pb.drop 1).take 64) (List.replicate 49 0),
                     privC25519 := vb.take 64,
                     privP384 := List.replicate 48 0,
                     pubNonce := pb.headD 0,
                     pubC25519 := (pb.drop 1).take 64,
                     pubP384 := List.replicate 49 0,
                     idType := .c25519,
                     hasPrivate := true }
          | _, _ => none
        else none
      else if tch = '1' then
        if rest.length = 228 then
          match hexToBytes rest with
          | some pb =>
              some { address := addr,
                     fp := computeFingerprint .p384 addr (pb.headD 0)
                       ((pb.drop 1).take 64) ((pb.drop 65).take 49),
                     privC25519 := List.replicate 64 0,
                     privP384 := List.replicate 48 0,
                     pubNonce := pb.headD 0,
                     pubC25519 := (pb.drop 1).take 64,
                     pubP384 := (pb.drop 65).take 49,
                     idType := .p384,
                     hasPrivate := false }
          | none => none
        else if rest.length = 453 ∧ (rest.drop 228).headD 'x' = ':' then
          match hexToBytes (rest.take 228), hexToBytes (rest.drop 229) with
          | some pb, some vb =>
              some { address := addr,
                     fp := computeFingerprint .p384 addr (pb.headD 0)
                       ((pb.drop 1).take 64) ((pb.drop 65).take 49),
                     privC25519 := vb.take 64,
                     privP384 := (vb.drop 64).take 48,
                     pubNonce := pb.headD 0,
                     pubC25519 := (pb.drop 1).take 64,
                     pubP384 := (pb.drop 65).take 49,
                     idType := .p384,
                     hasPrivate := true }
          | _, _ => none
        else none
      else none

/-! ### Well-formed identities -/

/-- Structural invariants of a valid `Identity` value (spec section 3):
a 40-bit address; byte-valued buffer entries at their protocol sizes;
the stored fingerprint is the recomputed pure function of the public
material; absent private material is the all-zero sentinel; the P-384
fields of a type 0 identity are the all-zero default left by
`memoryZero`. -/
def wellFormed (id : Identity) : Prop :=
  id.address < 1099511627776
    ∧ id.pubNonce < 256
    ∧ id.pubC25519.length = 64
    ∧ id.pubP384.length = 49
    ∧ id.privC25519.length = 64
    ∧ id.privP384.length = 48
    ∧ (∀ b ∈ id.pubC25519, b < 256)
    ∧ (∀ b ∈ id.pubP384, b < 256)
    ∧ (∀ b ∈ id.privC25519, b < 256)
    ∧ (∀ b ∈ id.privP384, b < 256)
    ∧ id.fp = computeFingerprint id.idType id.address id.pubNonce
        id.pubC25519 id.pubP384
    ∧ (id.hasPrivate = false →
        id.privC25519 = List.replicate 64 0
          ∧ id.privP384 = List.replicate 48 0)
    ∧ (id.idType = .c25519 →
        id.pubP384 = List.replicate 49 0
          ∧ id.privP384 = List.replicate 48 0)

instance (id : Identity) : Decidable (wellFormed id) := by
  unfold wellFormed
  infer_instance

/-- Public keys genuinely derived from the stored private keys (the
situation after `generate`): the legacy public key always, the P-384
public key when the identity is `Hybrid`. -/
def pubConsistent (id : Identity) : Prop :=
  id.pubC25519 = c25519KeyDerive id.privC25519
    ∧ (id.idType = .p384 → id.pubP384 = ecc384KeyDerive id.privP384)

instance (id : Identity) : Decidable (pubConsistent id) := by
  unfold pubConsistent
  infer_instance

/-! ### Concrete sample identities (witness inputs) -/

def samplePrivC : List Nat := List.replicate 63 0 ++ [5]

def samplePrivC2 : List Nat := List.replicate 63 0 ++ [11]

def samplePrivP : List Nat := List.replicate 47 0 ++ [9]

def samplePrivP2 : List Nat := List.replicate 47 0 ++ [13]

/-- A type 0 (legacy) identity holding a private key. -/
def sampleLegacy : Identity where
  address := 123456789
  fp := computeFingerprint .c25519 123456789 7 (c25519KeyDerive samplePrivC)
    (List.replicate 49 0)
  privC25519 := samplePrivC
  privP384 := List.replicate 48 0
  pubNonce := 7
  pubC25519 := c25519KeyDerive samplePrivC
  pubP384 := List.replicate 49 0
  idType := .c25519
  hasPrivate := true

/-- `sampleLegacy` with the private key absent (zero sentinel). -/
def sampleLegacyNoPriv : Identity :=
  { sampleLegacy with hasPrivate := false, privC25519 := List.replicate 64 0 }

/-- A type 1 (hybrid) identity holding private keys. -/
def sampleHybrid : Identity where
  address := 987654321
  fp := computeFingerprint .p384 987654321 3 (c25519KeyDerive samplePrivC)
    (ecc384KeyDerive samplePrivP)
  privC25519 := samplePrivC
  privP384 := samplePrivP
  pubNonce := 3
  pubC25519 := c25519KeyDerive samplePrivC
  pubP384 := ecc384KeyDerive samplePrivP
  idType := .p384
  hasPrivate := true

/-- A second hybrid identity with different keys. -/
def sampleHybrid2 : Identity where
  address := 555000111
  fp := computeFingerprint .p384 555000111 4 (c25519KeyDerive samplePrivC2)
    (ecc384KeyDerive samplePrivP2)
  privC25519 := samplePrivC2
  privP384 := samplePrivP2
  pubNonce := 4
  pubC25519 := c25519KeyDerive samplePrivC2
  pubP384 := ecc384KeyDerive samplePrivP2
  idType := .p384
  hasPrivate := true

/-- A legacy identity with a private key, used as the legacy side of a
hybrid/legacy agreement. -/
def sampleLegacy2 : Identity where
  address := 77889900
  fp := computeFingerprint .c25519 77889900 9 (c25519KeyDerive samplePrivC2)
    (List.replicate 49 0)
  privC25519 := samplePrivC2
  privP384 := List.replicate 48 0
  pubNonce := 9
  pubC25519 := c25519KeyDerive samplePrivC2
  pubP384 := List.replicate 49 0
  idType := .c25519
  hasPrivate := true

/-- `sampleLegacy2` with the private key absent but different leftover
private bytes irrelevant to agreement, used to show `agree` ignores the
peer's private material. -/
def sampleLegacyNoPriv2 : Identity :=
  { sampleLegacy2 with hasPrivate := false,
                       privC25519 := List.replicate 64 0 }

/-! ### Binary roundtrip -/

theorem take_all_of_length {α : Type} (l : List α) (n : Nat)
    (h : l.length = n) : l.take n = l := by
  rw [← h, List.take_length]

/-- An identity with the private material scrubbed: what `unmarshal`
reconstructs when the private fields were not serialized. -/
def privScrub (id : Identity) : Identity :=
  { id with hasPrivate := false,
            privC25519 := List.replicate 64 0,
            privP384 := List.replicate 48 0 }

theorem unmarshal_shape_t0_priv (addr nonce : Nat) (pubC privC : List Nat)
    (h40 : addr < 1099511627776) (h1 : pubC.length = 64)
    (h2 : privC.length = 64) :
    unmarshal (natToBytesBE 5 addr ++ 128 :: nonce :: (pubC ++ privC)) =
      some { address := addr,
             fp := computeFingerprint .c25519 addr nonce pubC
               (List.replicate 49 0),
             privC25519 := privC,
             privP384 := List.replicate 48 0,
             pubNonce := nonce,
             pubC25519 := pubC,
             pubP384 := List.replicate 49 0,
             idType := .c25519,
             hasPrivate := true } := by
  have hA : (natToBytesBE 5 addr).length = 5 := length_natToBytesBE _ _
  have htake : (natToBytesBE 5 addr ++ 128 :: nonce :: (pubC ++ privC)).take 5
      = natToBytesBE 5 addr := take_append_len _ _ 5 hA
  have haddr : bytesToNat (natToBytesBE 5 addr) = addr := by
    rw [bytesToNat_natToBytesBE]
    exact Nat.mod_eq_of_lt (by norm_num [h40])
  have hdrop5 : (natToBytesBE 5 addr ++ 128 :: nonce :: (pubC ++ privC)).drop 5
      = 128 :: nonce :: (pubC ++ privC) := drop_append_len _ _ 5 hA
  have hdrop6 : (natToBytesBE 5 addr ++ 128 :: nonce :: (pubC ++ privC)).drop 6
      = nonce :: (pubC ++ privC) := by
    have h6 : (5 : Nat) + 1 = 6 := rfl
    have := drop_append_len_add (natToBytesBE 5 addr)
      (128 :: nonce :: (pubC ++ privC)) 5 1 hA
    rw [h6] at this
    simpa using this
  have hlen : (natToBytesBE 5 addr ++ 128 :: nonce :: (pubC ++ privC)).length
      = 135 := by
    simp [hA, h1, h2]
  have hpc : (pubC ++ privC).take 64 = pubC := take_append_len _ _ 64 h1
  have hvc0 : (pubC ++ privC).drop 64 = privC := drop_append_len _ _ 64 h1
  have hvc : ((pubC ++ privC).drop 64).take 64 = privC := by
    rw [hvc0]
    exact take_all_of_length _ _ h2
  rw [unmarshal]
  rw [if_neg (by omega)]
  simp only [htake, haddr, hdrop5, hdrop6]
  norm_num
  exact ⟨by omega, by rw [hpc], hvc, hpc⟩

theorem unmarshal_shape_t0_nopriv (addr nonce : Nat) (pubC : List Nat)
    (h40 : addr < 1099511627776) (h1 : pubC.length = 64) :
    unmarshal (natToBytesBE 5 addr ++ 0 :: nonce :: pubC) =
      some { address := addr,
             fp := computeFingerprint .c25519 addr nonce pubC
               (List.replicate 49 0),
             privC25519 := List.replicate 64 0,
             privP384 := List.replicate 48 0,
             pubNonce := nonce,
             pubC25519 := pubC,
             pubP384 := List.replicate 49 0,
             idType := .c25519,
             hasPrivate := false } := by
  have hA : (natToBytesBE 5 addr).length = 5 := length_natToBytesBE _ _
  have htake : (natToBytesBE 5 addr ++ 0 :: nonce :: pubC).take 5
      = natToBytesBE 5 addr := take_append_len _ _ 5 hA
  have haddr : bytesToNat (natToBytesBE 5 addr) = addr := by
    rw [bytesToNat_natToBytesBE]
    exact Nat.mod_eq_of_lt (by norm_num [h40])
  have hdrop5 : (natToBytesBE 5 addr ++ 0 :: nonce :: pubC).drop 5
      = 0 :: nonce :: pubC := drop_append_len _ _ 5 hA
  have hdrop6 : (natToBytesBE 5 addr ++ 0 :: nonce :: pubC).drop 6
      = nonce :: pubC := by
    have h6 : (5 : Nat) + 1 = 6 := rfl
    have := drop_append_len_add (natToBytesBE 5 addr)
      (0 :: nonce :: pubC) 5 1 hA
    rw [h6] at this
    simpa using this
  have hlen : (natToBytesBE 5 addr ++ 0 :: nonce :: pubC).length = 71 := by
    simp [hA, h1]
  have hpc : pubC.take 64 = pubC := take_all_of_length _ _ h1
  rw [unmarshal]
  rw [if_neg (by omega)]
  simp only [htake, haddr, hdrop5, hdrop6]
  norm_num
  exact ⟨by omega, by rw [hpc], by omega⟩

theorem unmarshal_shape_t1_priv (addr nonce : Nat)
    (pubC pubP privC privP : List Nat) (h40 : addr < 1099511627776)
    (h1 : pubC.length = 64) (h2 : pubP.length = 49)
    (h3 : privC.length = 64) (h4 : privP.length = 48) :
    unmarshal (natToBytesBE 5 addr
        ++ 129 :: nonce :: (pubC ++ (pubP ++ (privC ++ privP)))) =
      some { address := addr,
             fp := computeFingerprint .p384 addr nonce pubC pubP,
             privC25519 := privC,
             privP384 := privP,
             pubNonce := nonce,
             pubC25519 := pubC,
             pubP384 := pubP,
             idType := .p384,
             hasPrivate := true } := by
  have hA : (natToBytesBE 5 addr).length = 5 := length_natToBytesBE _ _
  have htake : (natToBytesBE 5 addr
        ++ 129 :: nonce :: (pubC ++ (pubP ++ (privC ++ privP)))).take 5
      = natToBytesBE 5 addr := take_append_len _ _ 5 hA
  have haddr : bytesToNat (natToBytesBE 5 addr) = addr := by
    rw [bytesToNat_natToBytesBE]
    exact Nat.mod_eq_of_lt (by norm_num [h40])
  have hdrop5 : (natToBytesBE 5 addr
        ++ 129 :: nonce :: (pubC ++ (pubP ++ (privC ++ privP)))).drop 5
      = 129 :: nonce :: (pubC ++ (pubP ++ (privC ++ privP))) :=
    drop_append_len _ _ 5 hA
  have hdrop6 : (natToBytesBE 5 addr
        ++ 129 :: nonce :: (pubC ++ (pubP ++ (privC ++ privP)))).drop 6
      = nonce :: (pubC ++ (pubP ++ (privC ++ privP))) := by
    have h6 : (5 : Nat) + 1 = 6 := rfl
    have := drop_append_len_add (natToBytesBE 5 addr)
      (129 :: nonce :: (pubC ++ (pubP ++ (privC ++ privP)))) 5 1 hA
    rw [h6] at this
    simpa using this
  have hlen : (natToBytesBE 5 addr
        ++ 129 :: nonce :: (pubC ++ (pubP ++ (privC ++ privP)))).length
      = 232 := by
    simp [hA, h1, h2, h3, h4]
  have hpc : (pubC ++ (pubP ++ (privC ++ privP))).take 64 = pubC :=
    take_append_len _ _ 64 h1
  have hd64 : (pubC ++ (pubP ++ (privC ++ privP))).drop 64
      = pubP ++ (privC ++ privP) := drop_append_len _ _ 64 h1
  have hpp : ((pubC ++ (pubP ++ (privC ++ privP))).drop 64).take 49
      = pubP := by
    rw [hd64]
    exact take_append_len _ _ 49 h2
  have hd113 : (pubC ++ (pubP ++ (privC ++ privP))).drop 113
      = privC ++ privP := by
    have e1 : (64 : Nat) + 49 = 113 := rfl
    have e2 := drop_append_len_add pubC (pubP ++ (privC ++ privP)) 64 49 h1
    rw [e1] at e2
    rw [e2]
    exact drop_append_len _ _ 49 h2
  have hvc : ((pubC ++ (pubP ++ (privC ++ privP))).drop 113).take 64
      = privC := by
    rw [hd113]
    exact take_append_len _ _ 64 h3
  have hd177 : (pubC ++ (pubP ++ (privC ++ privP))).drop 177 = privP := by
    have e1 : (64 : Nat) + 113 = 177 := rfl
    have e2 := drop_append_len_add pubC (pubP ++ (privC ++ privP)) 64 113 h1
    rw [e1] at e2
    rw [e2]
    have e3 : (49 : Nat) + 64 = 113 := rfl
    have e4 := drop_append_len_add pubP (privC ++ privP) 49 64 h2
    rw [e3] at e4
    rw [e4]
    exact drop_append_len _ _ 64 h3
  have hvp : ((pubC ++ (pubP ++ (privC ++ privP))).drop 177).take 48
      = privP := by
    rw [hd177]
    exact take_all_of_length _ _ h4
  rw [unmarshal]
  rw [if_neg (by omega)]
  simp only [htake, haddr, hdrop5, hdrop6]
  norm_num
  exact ⟨by omega, by rw [hpc, hpp], hvc, hvp, hpc, hpp⟩

theorem unmarshal_shape_t1_nopriv (addr nonce : Nat)
    (pubC pubP : List Nat) (h40 : addr < 1099511627776)
    (h1 : pubC.length = 64) (h2 : pubP.length = 49) :
    unmarshal (natToBytesBE 5 addr ++ 1 :: nonce :: (pubC ++ pubP)) =
      some { address := addr,
             fp := computeFingerprint .p384 addr nonce pubC pubP,
             privC25519 := List.replicate 64 0,
             privP384 := List.replicate 48 0,
             pubNonce := nonce,
             pubC25519 := pubC,
             pubP384 := pubP,
             idType := .p384,
             hasPrivate := false } := by
  have hA : (natToBytesBE 5 addr).length = 5 := length_natToBytesBE _ _
  have htake : (natToBytesBE 5 addr ++ 1 :: nonce :: (pubC ++ pubP)).take 5
      = natToBytesBE 5 addr := take_append_len _ _ 5 hA
  have haddr : bytesToNat (natToBytesBE 5 addr) = addr := by
    rw [bytesToNat_natToBytesBE]
    exact Nat.mod_eq_of_lt (by norm_num [h40])
  have hdrop5 : (natToBytesBE 5 addr ++ 1 :: nonce :: (pubC ++ pubP)).drop 5
      = 1 :: nonce :: (pubC ++ pubP) := drop_append_len _ _ 5 hA
  have hdrop6 : (natToBytesBE 5 addr ++ 1 :: nonce :: (pubC ++ pubP)).drop 6
      = nonce :: (pubC ++ pubP) := by
    have h6 : (5 : Nat) + 1 = 6 := rfl
    have := drop_append_len_add (natToBytesBE 5 addr)
      (1 :: nonce :: (pubC ++ pubP)) 5 1 hA
    rw [h6] at this
    simpa using this
  have hlen : (natToBytesBE 5 addr ++ 1 :: nonce :: (pubC ++ pubP)).length
      = 120 := by
    simp [hA, h1, h2]
  have hpc : (pubC ++ pubP).take 64 = pubC := take_append_len _ _ 64 h1
  have hpp : ((pubC ++ pubP).drop 64).take 49 = pubP := by
    rw [drop_append_len _ _ 64 h1]
    exact take_all_of_length _ _ h2
  rw [unmarshal]
  rw [if_neg (by omega)]
  simp only [htake, haddr, hdrop5, hdrop6]
  norm_num
  exact ⟨by omega, by rw [hpc, hpp], hpc, hpp⟩

theorem unmarshal_marshal (id : Identity) (p : Bool) (h : wellFormed id) :
    unmarshal (marshal id p)
      = some (if p && id.hasPrivate then id else privScrub id) := by
  obtain ⟨h40, hnonce, hpubC, hpubP, hprivC, hprivP, hb1, hb2, hb3, hb4,
    hfp, hnopriv, ht0⟩ := h
  obtain ⟨addr, fp, privC, privP, nonce, pubC, pubP, t, hpv⟩ := id
  dsimp only at h40 hnonce hpubC hpubP hprivC hprivP hfp hnopriv ht0 ⊢
  cases t with
  | c25519 =>
      obtain ⟨hpp0, hvp0⟩ := ht0 rfl
      subst hpp0
      subst hvp0
      cases hpb : p && hpv with
      | true =>
          have hpv1 : hpv = true := by
            rcases Bool.and_eq_true .. |>.mp hpb with ⟨_, h2⟩
            exact h2
          have hm : marshal (Identity.mk addr fp privC
                (List.replicate 48 0) nonce pubC (List.replicate 49 0)
                .c25519 hpv) p
              = natToBytesBE 5 addr ++ 128 :: nonce :: (pubC ++ privC) := by
            simp [marshal, typeFlagsByte, pubFieldEnc, privFieldEnc,
              typeCode, hpb, ZT_ADDRESS_LENGTH]
          rw [hm, unmarshal_shape_t0_priv addr nonce pubC privC h40 hpubC
            hprivC]
          simp only [hpb, if_true]
          simp [hfp, hpv1]
      | false =>
          have hm : marshal (Identity.mk addr fp privC
                (List.replicate 48 0) nonce pubC (List.replicate 49 0)
                .c25519 hpv) p
              = natToBytesBE 5 addr ++ 0 :: nonce :: pubC := by
            simp [marshal, typeFlagsByte, pubFieldEnc, privFieldEnc,
              typeCode, hpb, ZT_ADDRESS_LENGTH]
          rw [hm, unmarshal_shape_t0_nopriv addr nonce pubC h40 hpubC]
          simp [privScrub, hfp]
  | p384 =>
      cases hpb : p && hpv with
      | true =>
          have hpv1 : hpv = true := by
            rcases Bool.and_eq_true .. |>.mp hpb with ⟨_, h2⟩
            exact h2
          have hm : marshal (Identity.mk addr fp privC privP nonce pubC
                pubP .p384 hpv) p
              = natToBytesBE 5 addr
                ++ 129 :: nonce :: (pubC ++ (pubP ++ (privC ++ privP))) := by
            simp [marshal, typeFlagsByte, pubFieldEnc, privFieldEnc,
              typeCode, hpb, ZT_ADDRESS_LENGTH]
          rw [hm, unmarshal_shape_t1_priv addr nonce pubC pubP privC privP
            h40 hpubC hpubP hprivC hprivP]
          simp only [hpb, if_true]
          simp [hfp, hpv1]
      | false =>
          have hm : marshal (Identity.mk addr fp privC privP nonce pubC
                pubP .p384 hpv) p
              = natToBytesBE 5 addr ++ 1 :: nonce :: (pubC ++ pubP) := by
            simp [marshal, typeFlagsByte, pubFieldEnc, privFieldEnc,
              typeCode, hpb, ZT_ADDRESS_LENGTH]
          rw [hm, unmarshal_shape_t1_nopriv addr nonce pubC pubP h40 hpubC
            hpubP]
          simp [privScrub, hfp]

/-! ### Text roundtrip -/

theorem length_bytesToHex_natToBytesBE (n x : Nat) :
    (bytesToHex (natToBytesBE n x)).length = 2 * n := by
  rw [length_bytesToHex, length_natToBytesBE]

theorem fromString_shape_t0_priv (addr nonce : Nat) (pubC privC : List Nat)
    (h40 : addr < 1099511627776) (hn : nonce < 256)
    (h1 : pubC.length = 64) (h2 : privC.length = 64)
    (hbp : ∀ b ∈ pubC, b < 256) (hbv : ∀ b ∈ privC, b < 256) :
    fromStringId (bytesToHex (natToBytesBE 5 addr)
        ++ ':' :: '0' :: ':'
          :: (bytesToHex (nonce :: pubC) ++ ':' :: bytesToHex privC)) =
      some { address := addr,
             fp := computeFingerprint .c25519 addr nonce pubC
               (List.replicate 49 0),
             privC25519 := privC,
             privP384 := List.replicate 48 0,
             pubNonce := nonce,
             pubC25519 := pubC,
             pubP384 := List.replicate 49 0,
             idType := .c25519,
             hasPrivate := true } := by
  have hA : (bytesToHex (natToBytesBE 5 addr)).length = 10 :=
    length_bytesToHex_natToBytesBE 5 addr
  have hPH : (bytesToHex (nonce :: pubC)).length = 130 := by
    rw [length_bytesToHex]
    simp [h1]
  have hVH : (bytesToHex privC).length = 128 := by
    rw [length_bytesToHex, h2]
  have hlen : (bytesToHex (natToBytesBE 5 addr)
      ++ ':' :: '0' :: ':'
        :: (bytesToHex (nonce :: pubC) ++ ':' :: bytesToHex privC)).length
      = 272 := by
    simp [hA, hPH, hVH]
  have hd10 : (bytesToHex (natToBytesBE 5 addr)
      ++ ':' :: '0' :: ':'
        :: (bytesToHex (nonce :: pubC) ++ ':' :: bytesToHex privC)).drop 10
      = ':' :: '0' :: ':'
        :: (bytesToHex (nonce :: pubC) ++ ':' :: bytesToHex privC) :=
    drop_append_len _ _ 10 hA
  have hd11 : (bytesToHex (natToBytesBE 5 addr)
      ++ ':' :: '0' :: ':'
        :: (bytesToHex (nonce :: pubC) ++ ':' :: bytesToHex privC)).drop 11
      = '0' :: ':'
        :: (bytesToHex (nonce :: pubC) ++ ':' :: bytesToHex privC) := by
    have := drop_append_len_add (bytesToHex (natToBytesBE 5 addr))
      (':' :: '0' :: ':'
        :: (bytesToHex (nonce :: pubC) ++ ':' :: bytesToHex privC)) 10 1 hA
    simpa using this
  have hd12 : (bytesToHex (natToBytesBE 5 addr)
      ++ ':' :: '0' :: ':'
        :: (bytesToHex (nonce :: pubC) ++ ':' :: bytesToHex privC)).drop 12
      = ':' :: (bytesToHex (nonce :: pubC) ++ ':' :: bytesToHex privC) := by
    have := drop_append_len_add (bytesToHex (natToBytesBE 5 addr))
      (':' :: '0' :: ':'
        :: (bytesToHex (nonce :: pubC) ++ ':' :: bytesToHex privC)) 10 2 hA
    simpa using this
  have hd13 : (bytesToHex (natToBytesBE 5 addr)
      ++ ':' :: '0' :: ':'
        :: (bytesToHex (nonce :: pubC) ++ ':' :: bytesToHex privC)).drop 13
      = bytesToHex (nonce :: pubC) ++ ':' :: bytesToHex privC := by
    have := drop_append_len_add (bytesToHex (natToBytesBE 5 addr))
      (':' :: '0' :: ':'
        :: (bytesToHex (nonce :: pubC) ++ ':' :: bytesToHex privC)) 10 3 hA
    simpa using this
  have ht10 : (bytesToHex (natToBytesBE 5 addr)
      ++ ':' :: '0' :: ':'
        :: (bytesToHex (nonce :: pubC) ++ ':' :: bytesToHex privC)).take 10
      = bytesToHex (natToBytesBE 5 addr) := take_append_len _ _ 10 hA
  have hdecA : hexToBytes (bytesToHex (natToBytesBE 5 addr))
      = some (natToBytesBE 5 addr) :=
    hexToBytes_bytesToHex _ (natToBytesBE_lt 5 addr)
  have haddr : bytesToNat (natToBytesBE 5 addr) = addr := by
    rw [bytesToNat_natToBytesBE]
    exact Nat.mod_eq_of_lt (by norm_num [h40])
  have hrlen : (bytesToHex (nonce :: pubC) ++ ':' :: bytesToHex privC).length
      = 259 := by
    simp [hPH, hVH]
  have hr130 : (bytesToHex (nonce :: pubC)
      ++ ':' :: bytesToHex privC).drop 130 = ':' :: bytesToHex privC :=
    drop_append_len _ _ 130 hPH
  have hrt130 : (bytesToHex (nonce :: pubC)
      ++ ':' :: bytesToHex privC).take 130 = bytesToHex (nonce :: pubC) :=
    take_append_len _ _ 130 hPH
  have hr131 : (bytesToHex (nonce :: pubC)
      ++ ':' :: bytesToHex privC).drop 131 = bytesToHex privC := by
    have := drop_append_len_add (bytesToHex (nonce :: pubC))
      (':' :: bytesToHex privC) 130 1 hPH
    simpa using this
  have hdecP : hexToBytes (bytesToHex (nonce :: pubC))
      = some (nonce :: pubC) := by
    refine hexToBytes_bytesToHex _ ?_
    intro b hb
    rcases List.mem_cons.mp hb with h | h
    · omega
    · exact hbp b h
  have hdecV : hexToBytes (bytesToHex privC) = some privC :=
    hexToBytes_bytesToHex _ hbv
  have hpc : pubC.take 64 = pubC := take_all_of_length _ _ h1
  have hvc : privC.take 64 = privC := take_all_of_length _ _ h2
  rw [fromStringId]
  rw [if_neg (by omega)]
  rw [if_neg (by simp [hd10, hd12])]
  simp only [ht10, hdecA, haddr, hd11, hd13]
  norm_num [hrlen, hr130, hrt130, hr131, hdecP, hdecV]
  exact ⟨by rw [hpc], by omega, by omega⟩

theorem fromString_shape_t0_nopriv (addr nonce : Nat) (pubC : List Nat)
    (h40 : addr < 1099511627776) (hn : nonce < 256)
    (h1 : pubC.length = 64) (hbp : ∀ b ∈ pubC, b < 256) :
    fromStringId (bytesToHex (natToBytesBE 5 addr)
        ++ ':' :: '0' :: ':' :: bytesToHex (nonce :: pubC)) =
      some { address := addr,
             fp := computeFingerprint .c25519 addr nonce pubC
               (List.replicate 49 0),
             privC25519 := List.replicate 64 0,
             privP384 := List.replicate 48 0,
             pubNonce := nonce,
             pubC25519 := pubC,
             pubP384 := List.replicate 49 0,
             idType := .c25519,
             hasPrivate := false } := by
  have hA : (bytesToHex (natToBytesBE 5 addr)).length = 10 :=
    length_bytesToHex_natToBytesBE 5 addr
  have hPH : (bytesToHex (nonce :: pubC)).length = 130 := by
    rw [length_bytesToHex]
    simp [h1]
  have hlen : (bytesToHex (natToBytesBE 5 addr)
      ++ ':' :: '0' :: ':' :: bytesToHex (nonce :: pubC)).length = 143 := by
    simp [hA, hPH]
  have hd10 : (bytesToHex (natToBytesBE 5 addr)
      ++ ':' :: '0' :: ':' :: bytesToHex (nonce :: pubC)).drop 10
      = ':' :: '0' :: ':' :: bytesToHex (nonce :: pubC) :=
    drop_append_len _ _ 10 hA
  have hd11 : (bytesToHex (natToBytesBE 5 addr)
      ++ ':' :: '0' :: ':' :: bytesToHex (nonce :: pubC)).drop 11
      = '0' :: ':' :: bytesToHex (nonce :: pubC) := by
    have := drop_append_len_add (bytesToHex (natToBytesBE 5 addr))
      (':' :: '0' :: ':' :: bytesToHex (nonce :: pubC)) 10 1 hA
    simpa using this
  have hd12 : (bytesToHex (natToBytesBE 5 addr)
      ++ ':' :: '0' :: ':' :: bytesToHex (nonce :: pubC)).drop 12
      = ':' :: bytesToHex (nonce :: pubC) := by
    have := drop_append_len_add (bytesToHex (natToBytesBE 5 addr))
      (':' :: '0' :: ':' :: bytesToHex (nonce :: pubC)) 10 2 hA
    simpa using this
  have hd13 : (bytesToHex (natToBytesBE 5 addr)
      ++ ':' :: '0' :: ':' :: bytesToHex (nonce :: pubC)).drop 13
      = bytesToHex (nonce :: pubC) := by
    have := drop_append_len_add (bytesToHex (natToBytesBE 5 addr))
      (':' :: '0' :: ':' :: bytesToHex (nonce :: pubC)) 10 3 hA
    simpa using this
  have ht10 : (bytesToHex (natToBytesBE 5 addr)
      ++ ':' :: '0' :: ':' :: bytesToHex (nonce :: pubC)).take 10
      = bytesToHex (natToBytesBE 5 addr) := take_append_len _ _ 10 hA
  have hdecA : hexToBytes (bytesToHex (natToBytesBE 5 addr))
      = some (natToBytesBE 5 addr) :=
    hexToBytes_bytesToHex _ (natToBytesBE_lt 5 addr)
  have haddr : bytesToNat (natToBytesBE 5 addr) = addr := by
    rw [bytesToNat_natToBytesBE]
    exact Nat.mod_eq_of_lt (by norm_num [h40])
  have hdecP : hexToBytes (bytesToHex (nonce :: pubC))
      = some (nonce :: pubC) := by
    refine hexToBytes_bytesToHex _ ?_
    intro b hb
    rcases List.mem_cons.mp hb with h | h
    · omega
    · exact hbp b h
  have hpc : pubC.take 64 = pubC := take_all_of_length _ _ h1
  rw [fromStringId]
  rw [if_neg (by omega)]
  rw [if_neg (by simp [hd10, hd12])]
  simp only [ht10, hdecA, haddr, hd11, hd13]
  norm_num [hPH, hdecP]
  exact ⟨by rw [hpc], by omega⟩

theorem fromString_shape_t1_priv (addr nonce : Nat)
    (pubC pubP privC privP : List Nat)
    (h40 : addr < 1099511627776) (hn : nonce < 256)
    (h1 : pubC.length = 64) (h2 : pubP.length = 49)
    (h3 : privC.length = 64) (h4 : privP.length = 48)
    (hbp : ∀ b ∈ pubC, b < 256) (hbq : ∀ b ∈ pubP, b < 256)
    (hbv : ∀ b ∈ privC, b < 256) (hbw : ∀ b ∈ privP, b < 256) :
    fromStringId (bytesToHex (natToBytesBE 5 addr)
        ++ ':' :: '1' :: ':'
          :: (bytesToHex (nonce :: (pubC ++ pubP))
            ++ ':' :: bytesToHex (privC ++ privP))) =
      some { address := addr,
             fp := computeFingerprint .p384 addr nonce pubC pubP,
             privC25519 := privC,
             privP384 := privP,
             pubNonce := nonce,
             pubC25519 := pubC,
             pubP384 := pubP,
             idType := .p384,
             hasPrivate := true } := by
  have hA : (bytesToHex (natToBytesBE 5 addr)).length = 10 :=
    length_bytesToHex_natToBytesBE 5 addr
  have hPH : (bytesToHex (nonce :: (pubC ++ pubP))).length = 228 := by
    rw [length_bytesToHex]
    simp [h1, h2]
  have hVH : (bytesToHex (privC ++ privP)).length = 224 := by
    rw [length_bytesToHex]
    simp [h3, h4]
  have hlen : (bytesToHex (natToBytesBE 5 addr)
      ++ ':' :: '1' :: ':'
        :: (bytesToHex (nonce :: (pubC ++ pubP))
          ++ ':' :: bytesToHex (privC ++ privP))).length = 466 := by
    simp [hA, hPH, hVH]
  have hd10 : (bytesToHex (natToBytesBE 5 addr)
      ++ ':' :: '1' :: ':'
        :: (bytesToHex (nonce :: (pubC ++ pubP))
          ++ ':' :: bytesToHex (privC ++ privP))).drop 10
      = ':' :: '1' :: ':'
        :: (bytesToHex (nonce :: (pubC ++ pubP))
          ++ ':' :: bytesToHex (privC ++ privP)) :=
    drop_append_len _ _ 10 hA
  have hd11 : (bytesToHex (natToBytesBE 5 addr)
      ++ ':' :: '1' :: ':'
        :: (bytesToHex (nonce :: (pubC ++ pubP))
          ++ ':' :: bytesToHex (privC ++ privP))).drop 11
      = '1' :: ':'
        :: (bytesToHex (nonce :: (pubC ++ pubP))
          ++ ':' :: bytesToHex (privC ++ privP)) := by
    have := drop_append_len_add (bytesToHex (natToBytesBE 5 addr))
      (':' :: '1' :: ':'
        :: (bytesToHex (nonce :: (pubC ++ pubP))
          ++ ':' :: bytesToHex (privC ++ privP))) 10 1 hA
    simpa using this
  have hd12 : (bytesToHex (natToBytesBE 5 addr)
      ++ ':' :: '1' :: ':'
        :: (bytesToHex (nonce :: (pubC ++ pubP))
          ++ ':' :: bytesToHex (privC ++ privP))).drop 12
      = ':' :: (bytesToHex (nonce :: (pubC ++ pubP))
          ++ ':' :: bytesToHex (privC ++ privP)) := by
    have := drop_append_len_add (bytesToHex (natToBytesBE 5 addr))
      (':' :: '1' :: ':'
        :: (bytesToHex (nonce :: (pubC ++ pubP))
          ++ ':' :: bytesToHex (privC ++ privP))) 10 2 hA
    simpa using this
  have hd13 : (bytesToHex (natToBytesBE 5 addr)
      ++ ':' :: '1' :: ':'
        :: (bytesToHex (nonce :: (pubC ++ pubP))
          ++ ':' :: bytesToHex (privC ++ privP))).drop 13
      = bytesToHex (nonce :: (pubC ++ pubP))
          ++ ':' :: bytesToHex (privC ++ privP) := by
    have := drop_append_len_add (bytesToHex (natToBytesBE 5 addr))
      (':' :: '1' :: ':'
        :: (bytesToHex (nonce :: (pubC ++ pubP))
          ++ ':' :: bytesToHex (privC ++ privP))) 10 3 hA
    simpa using this
  have ht10 : (bytesToHex (natToBytesBE 5 addr)
      ++ ':' :: '1' :: ':'
        :: (bytesToHex (nonce :: (pubC ++ pubP))
          ++ ':' :: bytesToHex (privC ++ privP))).take 10
      = bytesToHex (natToBytesBE 5 addr) := take_append_len _ _ 10 hA
  have hdecA : hexToBytes (bytesToHex (natToBytesBE 5 addr))
      = some (natToBytesBE 5 addr) :=
    hexToBytes_bytesToHex _ (natToBytesBE_lt 5 addr)
  have haddr : bytesToNat (natToBytesBE 5 addr) = addr := by
    rw [bytesToNat_natToBytesBE]
    exact Nat.mod_eq_of_lt (by norm_num [h40])
  have hrlen : (bytesToHex (nonce :: (pubC ++ pubP))
      ++ ':' :: bytesToHex (privC ++ privP)).length = 453 := by
    simp [hPH, hVH]
  have hr228 : (bytesToHex (nonce :: (pubC ++ pubP))
      ++ ':' :: bytesToHex (privC ++ privP)).drop 228
      = ':' :: bytesToHex (privC ++ privP) := drop_append_len _ _ 228 hPH
  have hrt228 : (bytesToHex (nonce :: (pubC ++ pubP))
      ++ ':' :: bytesToHex (privC ++ privP)).take 228
      = bytesToHex (nonce :: (pubC ++ pubP)) := take_append_len _ _ 228 hPH
  have hr229 : (bytesToHex (nonce :: (pubC ++ pubP))
      ++ ':' :: bytesToHex (privC ++ privP)).drop 229
      = bytesToHex (privC ++ privP) := by
    have := drop_append_len_add (bytesToHex (nonce :: (pubC ++ pubP)))
      (':' :: bytesToHex (privC ++ privP)) 228 1 hPH
    simpa using this
  have hdecP : hexToBytes (bytesToHex (nonce :: (pubC ++ pubP)))
      = some (nonce :: (pubC ++ pubP)) := by
    refine hexToBytes_bytesToHex _ ?_
    intro b hb
    rcases List.mem_cons.mp hb with h | h
    · omega
    · rcases List.mem_append.mp h with h | h
      · exact hbp b h
      · exact hbq b h
  have hdecV : hexToBytes (bytesToHex (privC ++ privP))
      = some (privC ++ privP) := by
    refine hexToBytes_bytesToHex _ ?_
    intro b hb
    rcases List.mem_append.mp hb with h | h
    · exact hbv b h
    · exact hbw b h
  have hpc : (pubC ++ pubP).take 64 = pubC := take_append_len _ _ 64 h1
  have hpp : ((pubC ++ pubP).drop 64).take 49 = pubP := by
    rw [drop_append_len _ _ 64 h1]
    exact take_all_of_length _ _ h2
  have hvc : (privC ++ privP).take 64 = privC := take_append_len _ _ 64 h3
  have hvp : ((privC ++ privP).drop 64).take 48 = privP := by
    rw [drop_append_len _ _ 64 h3]
    exact take_all_of_length _ _ h4
  rw [fromStringId]
  rw [if_neg (by omega)]
  rw [if_neg (by simp [hd10, hd12])]
  simp only [ht10, hdecA, haddr, hd11, hd13]
  norm_num [hrlen, hr228, hrt228, hr229, hdecP, hdecV]
  exact ⟨by decide, by rw [hpc, hpp], hvc, hvp, hpc, hpp⟩

theorem fromString_shape_t1_nopriv (addr nonce : Nat)
    (pubC pubP : List Nat)
    (h40 : addr < 1099511627776) (hn : nonce < 256)
    (h1 : pubC.length = 64) (h2 : pubP.length = 49)
    (hbp : ∀ b ∈ pubC, b < 256) (hbq : ∀ b ∈ pubP, b < 256) :
    fromStringId (bytesToHex (natToBytesBE 5 addr)
        ++ ':' :: '1' :: ':' :: bytesToHex (nonce :: (pubC ++ pubP))) =
      some { address := addr,
             fp := computeFingerprint .p384 addr nonce pubC pubP,
             privC25519 := List.replicate 64 0,
             privP384 := List.replicate 48 0,
             pubNonce := nonce,
             pubC25519 := pubC,
             pubP384 := pubP,
             idType := .p384,
             hasPrivate := false } := by
  have hA : (bytesToHex (natToBytesBE 5 addr)).length = 10 :=
    length_bytesToHex_natToBytesBE 5 addr
  have hPH : (bytesToHex (nonce :: (pubC ++ pubP))).length = 228 := by
    rw [length_bytesToHex]
    simp [h1, h2]
  have hlen : (bytesToHex (natToBytesBE 5 addr)
      ++ ':' :: '1' :: ':' :: bytesToHex (nonce :: (pubC ++ pubP))).length
      = 241 := by
    simp [hA, hPH]
  have hd10 : (bytesToHex (natToBytesBE 5 addr)
      ++ ':' :: '1' :: ':' :: bytesToHex (nonce :: (pubC ++ pubP))).drop 10
      = ':' :: '1' :: ':' :: bytesToHex (nonce :: (pubC ++ pubP)) :=
    drop_append_len _ _ 10 hA
  have hd11 : (bytesToHex (natToBytesBE 5 addr)
      ++ ':' :: '1' :: ':' :: bytesToHex (nonce :: (pubC ++ pubP))).drop 11
      = '1' :: ':' :: bytesToHex (nonce :: (pubC ++ pubP)) := by
    have := drop_append_len_add (bytesToHex (natToBytesBE 5 addr))
      (':' :: '1' :: ':' :: bytesToHex (nonce :: (pubC ++ pubP))) 10 1 hA
    simpa using this
  have hd12 : (bytesToHex (natToBytesBE 5 addr)
      ++ ':' :: '1' :: ':' :: bytesToHex (nonce :: (pubC ++ pubP))).drop 12
      = ':' :: bytesToHex (nonce :: (pubC ++ pubP)) := by
    have := drop_append_len_add (bytesToHex (natToBytesBE 5 addr))
      (':' :: '1' :: ':' :: bytesToHex (nonce :: (pubC ++ pubP))) 10 2 hA
    simpa using this
  have hd13 : (bytesToHex (natToBytesBE 5 addr)
      ++ ':' :: '1' :: ':' :: bytesToHex (nonce :: (pubC ++ pubP))).drop 13
      = bytesToHex (nonce :: (pubC ++ pubP)) := by
    have := drop_append_len_add (bytesToHex (natToBytesBE 5 addr))
      (':' :: '1' :: ':' :: bytesToHex (nonce :: (pubC ++ pubP))) 10 3 hA
    simpa using this
  have ht10 : (bytesToHex (natToBytesBE 5 addr)
      ++ ':' :: '1' :: ':' :: bytesToHex (nonce :: (pubC ++ pubP))).take 10
      = bytesToHex (natToBytesBE 5 addr) := take_append_len _ _ 10 hA
  have hdecA : hexToBytes (bytesToHex (natToBytesBE 5 addr))
      = some (natToBytesBE 5 addr) :=
    hexToBytes_bytesToHex _ (natToBytesBE_lt 5 addr)
  have haddr : bytesToNat (natToBytesBE 5 addr) = addr := by
    rw [bytesToNat_natToBytesBE]
    exact Nat.mod_eq_of_lt (by norm_num [h40])
  have hdecP : hexToBytes (bytesToHex (nonce :: (pubC ++ pubP)))
      = some (nonce :: (pubC ++ pubP)) := by
    refine hexToBytes_bytesToHex _ ?_
    intro b hb
    rcases List.mem_cons.mp hb with h | h
    · omega
    · rcases List.mem_append.mp h with h | h
      · exact hbp b h
      · exact hbq b h
  have hpc : (pubC ++ pubP).take 64 = pubC := take_append_len _ _ 64 h1
  have hpp : ((pubC ++ pubP).drop 64).take 49 = pubP := by
    rw [drop_append_len _ _ 64 h1]
    exact take_all_of_length _ _ h2
  rw [fromStringId]
  rw [if_neg (by omega)]
  rw [if_neg (by simp [hd10, hd12])]
  simp only [ht10, hdecA, haddr, hd11, hd13]
  norm_num [hPH, hdecP]
  exact ⟨by decide, by rw [hpc, hpp], hpc, hpp⟩

theorem fromString_toString (id : Identity) (p : Bool) (h : wellFormed id) :
    fromStringId (toStringId id p)
      = some (if p && id.hasPrivate then id else privScrub id) := by
  obtain ⟨h40, hnonce, hpubC, hpubP, hprivC, hprivP, hb1, hb2, hb3, hb4,
    hfp, hnopriv, ht0⟩ := h
  obtain ⟨addr, fp, privC, privP, nonce, pubC, pubP, t, hpv⟩ := id
  dsimp only at *
  cases t with
  | c25519 =>
      obtain ⟨hpp0, hvp0⟩ := ht0 rfl
      subst hpp0
      subst hvp0
      cases hpb : p && hpv with
      | true =>
          have hpv1 : hpv = true := by
            rcases Bool.and_eq_true .. |>.mp hpb with ⟨_, h2⟩
            exact h2
          have hm : toStringId (Identity.mk addr fp privC
                (List.replicate 48 0) nonce pubC (List.replicate 49 0)
                .c25519 hpv) p
              = bytesToHex (natToBytesBE 5 addr)
                ++ ':' :: '0' :: ':'
                  :: (bytesToHex (nonce :: pubC)
                    ++ ':' :: bytesToHex privC) := by
            simp [toStringId, typeCharOf, pubFieldEnc, privFieldEnc,
              hpb, ZT_ADDRESS_LENGTH]
          rw [hm, fromString_shape_t0_priv addr nonce pubC privC h40 hnonce
            hpubC hprivC hb1 hb3]
          simp only [hpb, if_true]
          simp [hfp, hpv1]
      | false =>
          have hm : toStringId (Identity.mk addr fp privC
                (List.replicate 48 0) nonce pubC (List.replicate 49 0)
                .c25519 hpv) p
              = bytesToHex (natToBytesBE 5 addr)
                ++ ':' :: '0' :: ':' :: bytesToHex (nonce :: pubC) := by
            simp [toStringId, typeCharOf, pubFieldEnc, privFieldEnc,
              hpb, ZT_ADDRESS_LENGTH]
          rw [hm, fromString_shape_t0_nopriv addr nonce pubC h40 hnonce
            hpubC hb1]
          simp [privScrub, hfp]
  | p384 =>
      cases hpb : p && hpv with
      | true =>
          have hpv1 : hpv = true := by
            rcases Bool.and_eq_true .. |>.mp hpb with ⟨_, h2⟩
            exact h2
          have hm : toStringId (Identity.mk addr fp privC privP nonce pubC
                pubP .p384 hpv) p
              = bytesToHex (natToBytesBE 5 addr)
                ++ ':' :: '1' :: ':'
                  :: (bytesToHex (nonce :: (pubC ++ pubP))
                    ++ ':' :: bytesToHex (privC ++ privP)) := by
            simp [toStringId, typeCharOf, pubFieldEnc, privFieldEnc,
              hpb, ZT_ADDRESS_LENGTH]
          rw [hm, fromString_shape_t1_priv addr nonce pubC pubP privC privP
            h40 hnonce hpubC hpubP hprivC hprivP hb1 hb2 hb3 hb4]
          simp only [hpb, if_true]
          simp [hfp, hpv1]
      | false =>
          have hm : toStringId (Identity.mk addr fp privC privP nonce pubC
                pubP .p384 hpv) p
              = bytesToHex (natToBytesBE 5 addr)
                ++ ':' :: '1' :: ':'
                  :: bytesToHex (nonce :: (pubC ++ pubP)) := by
            simp [toStringId, typeCharOf, pubFieldEnc, privFieldEnc,
              hpb, ZT_ADDRESS_LENGTH]
          rw [hm, fromString_shape_t1_nopriv addr nonce pubC pubP h40
            hnonce hpubC hpubP hb1 hb2]
          simp [privScrub, hfp]

theorem privScrub_eq_self (id : Identity) (h : wellFormed id)
    (hp : id.hasPrivate = false) : privScrub id = id := by
  obtain ⟨_, _, _, _, _, _, _, _, _, _, _, hnopriv, _⟩ := h
  obtain ⟨hc, hpp⟩ := hnopriv hp
  obtain ⟨addr, fp, privC, privP, nonce, pubC, pubP, t, hpv⟩ := id
  dsimp only at *
  simp [privScrub, hc, hpp, hp]

/-! ### Claim theorems -/

/-- Claim C1: for every pair of `Identity` values, `==` holds iff the
fingerprints are equal, and the ordering operators and `hashCode` are
functions of the fingerprint only — two identities with equal
fingerprints but arbitrary different addresses and key bytes compare
identically against everything and hash identically. -/
theorem identity_equality_ordering_hash_from_fingerprint (a b : Identity) :
    (idEq a b = true ↔ a.fp = b.fp)
      ∧ (a.fp = b.fp →
          idHashCode a = idHashCode b
            ∧ ∀ c : Identity,
                idEq a c = idEq b c
                  ∧ idEq c a = idEq c b
                  ∧ idNe a c = idNe b c
                  ∧ idLt a c = idLt b c
                  ∧ idLt c a = idLt c b
                  ∧ idGt a c = idGt b c
                  ∧ idLe a c = idLe b c
                  ∧ idGe a c = idGe b c) := by
  constructor
  · simp [idEq]
  · intro hfp
    refine ⟨by simp [idHashCode, hfp], fun c => ?_⟩
    simp [idEq, idNe, idLt, idGt, idLe, idGe, hfp]

/-- Two identities with the nil fingerprint but different addresses and
different key material. -/
def cwA : Identity := { nilIdentity with address := 1 }

def cwB : Identity :=
  { nilIdentity with address := 2,
                     pubC25519 := List.replicate 64 7,
                     privC25519 := List.replicate 64 9 }

/-- Witness for claim C1 at concrete identities sharing a fingerprint
but differing in address and raw key bytes. -/
theorem identity_equality_ordering_hash_witness :
    idEq cwA cwB = true
      ∧ idHashCode cwA = idHashCode cwB
      ∧ idLt cwA nilIdentity = idLt cwB nilIdentity := by
  have h := identity_equality_ordering_hash_from_fingerprint cwA cwB
  have hfp : cwA.fp = cwB.fp := rfl
  exact ⟨h.1.mpr hfp, (h.2 hfp).1, (((h.2 hfp).2 nilIdentity).2.2.2.2).1⟩

/-- Claim C2: `unmarshal (marshal id true)` reproduces the identity
exactly (same address, type, fingerprint, public keys and private
keys), and `unmarshal (marshal id false)` reproduces it with the
private material scrubbed, in particular with `hasPrivate = false`. -/
theorem identity_marshal_roundtrip (id : Identity) (h : wellFormed id) :
    unmarshal (marshal id true) = some id
      ∧ unmarshal (marshal id false) = some (privScrub id)
      ∧ (privScrub id).hasPrivate = false := by
  refine ⟨?_, ?_, rfl⟩
  · have hm := unmarshal_marshal id true h
    cases hp : id.hasPrivate with
    | true => simpa [hp] using hm
    | false =>
        rw [hm]
        simp only [hp, Bool.and_false]
        rw [privScrub_eq_self id h hp]
        simp
  · have hm := unmarshal_marshal id false h
    simpa using hm

/-- Witness for claim C2 at a concrete legacy identity with a private
key. -/
theorem identity_marshal_roundtrip_witness :
    wellFormed sampleLegacy
      ∧ unmarshal (marshal sampleLegacy true) = some sampleLegacy := by
  have hw : wellFormed sampleLegacy := by decide
  exact ⟨hw, (identity_marshal_roundtrip sampleLegacy hw).1⟩

theorem toString_privScrub (id : Identity) (p : Bool)
    (hfalse : (p && id.hasPrivate) = false) :
    toStringId (privScrub id) p = toStringId id p := by
  obtain ⟨addr, fp, privC, privP, nonce, pubC, pubP, t, hpv⟩ := id
  simp [toStringId, privScrub, pubFieldEnc, privFieldEnc, hfalse]

/-- Claim C8: decoding the canonical text form of a valid identity and
re-encoding it with the same `includePrivate` choice reproduces
byte-identical text. -/
theorem identity_text_canonical_roundtrip (id : Identity) (p : Bool)
    (h : wellFormed id) :
    (fromStringId (toStringId id p)).map (fun d => toStringId d p)
      = some (toStringId id p) := by
  rw [fromString_toString id p h]
  cases hb : p && id.hasPrivate with
  | true => simp
  | false =>
      show some (toStringId (privScrub id) p) = some (toStringId id p)
      rw [toString_privScrub id p hb]

/-- Witness for claim C8 at a concrete legacy identity, with
`includePrivate = false` as in the spec's example. -/
theorem identity_text_canonical_roundtrip_witness :
    wellFormed sampleLegacy
      ∧ (fromStringId (toStringId sampleLegacy false)).map
          (fun d => toStringId d false)
        = some (toStringId sampleLegacy false) := by
  have hw : wellFormed sampleLegacy := by decide
  exact ⟨hw, identity_text_canonical_roundtrip sampleLegacy false hw⟩

/-- Claim C9: the binary encoding is the fixed field order
`[address:5][type+flags:1][public][private?]` and its length never
exceeds the compile-time bound `marshalSizeMax`, which covers the
largest (hybrid, with-private) case. -/
theorem marshal_field_order_and_size_bound (id : Identity) (p : Bool)
    (h : wellFormed id) :
    marshal id p
        = natToBytesBE ZT_ADDRESS_LENGTH id.address
          ++ [typeFlagsByte id p] ++ pubFieldEnc id ++ privFieldEnc id p
      ∧ (marshal id p).length ≤ ZT_IDENTITY_MARSHAL_SIZE_MAX
      ∧ ZT_IDENTITY_MARSHAL_SIZE_MAX
          = ZT_ADDRESS_LENGTH + 4
            + ZT_IDENTITY_P384_COMPOUND_PUBLIC_KEY_SIZE
            + ZT_IDENTITY_P384_COMPOUND_PRIVATE_KEY_SIZE := by
  obtain ⟨h40, hnonce, hpubC, hpubP, hprivC, hprivP, hb1, hb2, hb3, hb4,
    hfp, hnopriv, ht0⟩ := h
  refine ⟨by simp [marshal], ?_, rfl⟩
  have hpl : (pubFieldEnc id).length ≤ 114 := by
    cases ht : id.idType <;> simp [pubFieldEnc, ht, hpubC, hpubP]
  have hvl : (privFieldEnc id p).length ≤ 112 := by
    by_cases hb : (p && id.hasPrivate) = true
    · simp only [Bool.and_eq_true] at hb
      obtain ⟨hp1, hp2⟩ := hb
      cases ht : id.idType <;>
        simp [privFieldEnc, ht, hp1, hp2, hprivC, hprivP]
    · have hb2 : (p && id.hasPrivate) = false := by
        cases hq : p && id.hasPrivate
        · rfl
        · exact absurd hq hb
      simp only [Bool.and_eq_false_imp] at hb2
      by_cases hp1 : p = true
      · simp [privFieldEnc, hp1, hb2 hp1]
      · have : p = false := by
          cases p
          · rfl
          · exact absurd rfl hp1
        simp [privFieldEnc, this]
  have hml : (marshal id p).length
      = 6 + (pubFieldEnc id).length + (privFieldEnc id p).length := by
    simp [marshal, length_natToBytesBE, ZT_ADDRESS_LENGTH]
    omega
  have hmax : ZT_IDENTITY_MARSHAL_SIZE_MAX = 235 := rfl
  omega

/-- Witness for claim C9 at the largest case: a hybrid identity with
private keys. -/
theorem marshal_field_order_and_size_bound_witness :
    wellFormed sampleHybrid
      ∧ (marshal sampleHybrid true).length ≤ ZT_IDENTITY_MARSHAL_SIZE_MAX := by
  have hw : wellFormed sampleHybrid := by decide
  exact ⟨hw, (marshal_field_order_and_size_bound sampleHybrid true hw).2.1⟩

theorem unmarshal_none_of_bad_length (bs : List Nat)
    (h : bs.length ∉ ([71, 120, 135, 232] : List Nat)) :
    unmarshal bs = none := by
  simp only [List.mem_cons, List.mem_singleton] at h
  push_neg at h
  obtain ⟨h71, h120, h135, h232⟩ := h
  simp only [unmarshal, List.length_drop]
  split_ifs <;> first | rfl | (exfalso; omega)

theorem unmarshal_none_of_unknown_type (bs : List Nat)
    (_h6 : 6 ≤ bs.length) (ht : 2 ≤ (bs.drop 5).headD 0 % 128) :
    unmarshal bs = none := by
  simp only [unmarshal, List.length_drop]
  split_ifs <;> first | rfl | (exfalso; omega)

theorem fromString_none_of_short (s : List Char) (h : s.length < 143) :
    fromStringId s = none := by
  rw [fromStringId]
  by_cases h13 : s.length < 13
  · rw [if_pos h13]
  · rw [if_neg h13]
    by_cases hcol : (s.drop 10).headD 'x' ≠ ':' ∨ (s.drop 12).headD 'x' ≠ ':'
    · rw [if_pos hcol]
    · rw [if_neg hcol]
      cases hdec : hexToBytes (s.take 10) with
      | none => simp [hdec]
      | some addrB =>
          simp only [hdec]
          have hr : (s.drop 13).length = s.length - 13 := by simp
          split_ifs <;> first | rfl | (exfalso; omega)

theorem fromString_none_of_bad_colon (s : List Char)
    (h13 : 13 ≤ s.length) (hc : (s.drop 10).headD 'x' ≠ ':') :
    fromStringId s = none := by
  rw [fromStringId]
  rw [if_neg (by omega)]
  rw [if_pos (Or.inl hc)]

/-- Claim C5: malformed binary input (truncated below the 71-byte
minimum, oversized, unknown type value, or any length mismatch) and
malformed text (truncated, or with a misplaced delimiter) decode to the
nil result, with no partially populated identity; the decoders are
total functions, so no out-of-bounds access is possible. -/
theorem malformed_input_yields_nil :
    (∀ bs : List Nat, bs.length < 71 → unmarshal bs = none)
      ∧ (∀ bs : List Nat, 232 < bs.length → unmarshal bs = none)
      ∧ (∀ bs : List Nat, bs.length ∉ ([71, 120, 135, 232] : List Nat) →
          unmarshal bs = none)
      ∧ (∀ bs : List Nat, 6 ≤ bs.length →
          2 ≤ (bs.drop 5).headD 0 % 128 → unmarshal bs = none)
      ∧ (∀ s : List Char, s.length < 143 → fromStringId s = none)
      ∧ (∀ s : List Char, 13 ≤ s.length →
          (s.drop 10).headD 'x' ≠ ':' → fromStringId s = none) := by
  refine ⟨?_, ?_, unmarshal_none_of_bad_length, unmarshal_none_of_unknown_type,
    fromString_none_of_short, fromString_none_of_bad_colon⟩
  · intro bs h
    apply unmarshal_none_of_bad_length
    simp
    omega
  · intro bs h
    apply unmarshal_none_of_bad_length
    simp
    omega

/-- Witness for claim C5 at concrete malformed inputs: the empty byte
string and the empty text. -/
theorem malformed_input_yields_nil_witness :
    unmarshal [] = none ∧ fromStringId [] = none := by
  have h := malformed_input_yields_nil
  exact ⟨h.1 [] (by decide), h.2.2.2.2.1 [] (by decide)⟩

/-- Claim C6: the default-constructed (nil) identity has address zero,
converts to `false`, and no operation succeeds on it:
`locallyValidate` is false, `sign` writes nothing, `verify` rejects
every signature, and `agree` fails against every peer. -/
theorem nil_identity_inert :
    nilIdentity.address = 0
      ∧ idBool nilIdentity = false
      ∧ locallyValidate nilIdentity = false
      ∧ (∀ (data : List Nat) (siglen : Nat),
          signId nilIdentity data siglen = (0, []))
      ∧ (∀ data sig : List Nat, verifyId nilIdentity data sig = false)
      ∧ (∀ other : Identity, agreeId nilIdentity other = none) := by
  refine ⟨rfl, rfl, ?_, ?_, ?_, ?_⟩
  · simp [locallyValidate, nilIdentity, isValidAddress]
  · intro data siglen
    simp [signId, nilIdentity]
  · intro data sig
    simp [verifyId, nilIdentity]
  · intro other
    simp [agreeId, nilIdentity]

/-- Claim C7: `sign` returns `(0, [])` whenever the private key is
absent or the buffer is too small for the algorithm's signature;
`agree` fails exactly when the caller lacks a private key, never
because the peer does — it depends only on the peer's public fields
and succeeds whenever the caller holds a private key. -/
theorem sign_agree_error_handling :
    (∀ (id : Identity) (data : List Nat) (siglen : Nat),
        id.hasPrivate = false → signId id data siglen = (0, []))
      ∧ (∀ (id : Identity) (data : List Nat) (siglen : Nat),
          siglen < (signBytes id data).length → signId id data siglen = (0, []))
      ∧ (∀ id other : Identity,
          id.hasPrivate = false → agreeId id other = none)
      ∧ (∀ id o o' : Identity, id.hasPrivate = true →
          o.pubC25519 = o'.pubC25519 → o.pubP384 = o'.pubP384 →
          o.idType = o'.idType →
          agreeId id o = agreeId id o' ∧ (agreeId id o).isSome = true) := by
  refine ⟨?_, ?_, ?_, ?_⟩
  · intro id data siglen h
    simp [signId, h]
  · intro id data siglen h
    cases hp : id.hasPrivate with
    | false => simp [signId, hp]
    | true => simp [signId, hp, h]
  · intro id other h
    simp [agreeId, h]
  · intro id o o' hp hpc hpp ht
    constructor
    · simp only [agreeId, legacySecret, hp]
      rw [hpc, hpp, ht]
    · cases ht1 : id.idType <;> cases ht2 : o.idType <;>
        simp [agreeId, hp, ht1, ht2]

/-- Witness for claim C7 at concrete identities: a private-less legacy
identity cannot sign or agree, a too-small buffer fails signing, and a
hybrid identity agrees with a peer identity independently of the
peer's private material. -/
theorem sign_agree_error_handling_witness :
    signId sampleLegacyNoPriv [1, 2, 3] 1000 = (0, [])
      ∧ signId sampleLegacy [1, 2, 3] 10 = (0, [])
      ∧ agreeId sampleLegacyNoPriv sampleHybrid = none
      ∧ agreeId sampleHybrid sampleLegacy2
          = agreeId sampleHybrid sampleLegacyNoPriv2
      ∧ (agreeId sampleHybrid sampleLegacy2).isSome = true := by
  have h := sign_agree_error_handling
  have h4 := h.2.2.2 sampleHybrid sampleLegacy2 sampleLegacyNoPriv2 rfl
    (by decide) (by decide) (by decide)
  exact ⟨h.1 sampleLegacyNoPriv [1, 2, 3] 1000 rfl,
    h.2.1 sampleLegacy [1, 2, 3] 10 (by decide),
    h.2.2.1 sampleLegacyNoPriv sampleHybrid rfl, h4.1, h4.2⟩

/-- Claim C10: for an identity without a private key — in particular
the nil identity — `hashWithPrivate` yields an all-zero buffer instead
of a digest. -/
theorem hashWithPrivate_zero_when_no_private (id : Identity)
    (h : id.hasPrivate = false ∨ id = nilIdentity) :
    hashWithPrivate id = List.replicate ZT_IDENTITY_HASH_SIZE 0 := by
  rcases h with h | h
  · simp [hashWithPrivate, h]
  · subst h
    simp [hashWithPrivate, nilIdentity]

/-- Witness for claim C10 at the nil identity and at a private-less
legacy identity. -/
theorem hashWithPrivate_zero_when_no_private_witness :
    hashWithPrivate nilIdentity = List.replicate ZT_IDENTITY_HASH_SIZE 0
      ∧ hashWithPrivate sampleLegacyNoPriv
        = List.replicate ZT_IDENTITY_HASH_SIZE 0 :=
  ⟨hashWithPrivate_zero_when_no_private nilIdentity (Or.inr rfl),
    hashWithPrivate_zero_when_no_private sampleLegacyNoPriv (Or.inl rfl)⟩

/-! ### Bit flipping -/

/-- Flip bit `j` of byte `i` of a buffer. -/
def flipBit (bs : List Nat) (i j : Nat) : List Nat :=
  bs.set i (bs.getD i 0 ^^^ 2 ^ j)

theorem xor_pow2_ne (b j : Nat) : b ^^^ 2 ^ j ≠ b := by
  intro h
  have h2 : b ^^^ (b ^^^ 2 ^ j) = b ^^^ b := congrArg (b ^^^ ·) h
  rw [← Nat.xor_assoc, Nat.xor_self, Nat.zero_xor] at h2
  exact absurd h2 (Nat.pos_iff_ne_zero.mp (pow_pos (by norm_num) j))

theorem getD_set_self (l : List Nat) (i a : Nat) (h : i < l.length) :
    (l.set i a).getD i 0 = a := by
  rw [List.getD_eq_getElem?_getD, List.getElem?_set_self]
  · simp
  · exact h

theorem flipBit_ne (bs : List Nat) (i j : Nat) (hi : i < bs.length) :
    flipBit bs i j ≠ bs := by
  intro h
  have hg : (flipBit bs i j).getD i 0 = bs.getD i 0 := by rw [h]
  rw [flipBit, getD_set_self bs i _ hi] at hg
  exact xor_pow2_ne (bs.getD i 0) j hg

/-- The public key the identity's declared type uses for verification
is not the all-zero sentinel. -/
def signingPubNonzero (id : Identity) : Prop :=
  (id.idType = .c25519 → id.pubC25519 ≠ List.replicate 64 0)
    ∧ (id.idType = .p384 → id.pubP384 ≠ List.replicate 49 0)

instance (id : Identity) : Decidable (signingPubNonzero id) := by
  unfold signingPubNonzero
  infer_instance

/-- Claim C3: for an identity holding a private key whose public key
matches it, `sign` succeeds (given a large-enough buffer) and the
signature verifies against the identity's public key, while flipping
any single bit of the data or of the signature makes verification
fail. -/
theorem identity_sign_verify_bitflip (id : Identity) (data : List Nat)
    (i j k l : Nat) (hp : id.hasPrivate = true) (hc : pubConsistent id)
    (hz : signingPubNonzero id) (hi : i < data.length)
    (hk : k < (signBytes id data).length) :
    signId id data ((signBytes id data).length)
        = ((signBytes id data).length, signBytes id data)
      ∧ verifyId id data (signBytes id data) = true
      ∧ verifyId id (flipBit data i j) (signBytes id data) = false
      ∧ verifyId id data (flipBit (signBytes id data) k l) = false := by
  refine ⟨by simp [signId, hp], ?_, ?_, ?_⟩
  · cases ht : id.idType with
    | c25519 =>
        simp only [verifyId, signBytes, ht]
        refine decide_eq_true ⟨hz.1 ht, ?_⟩
        rw [hc.1]
    | p384 =>
        simp only [verifyId, signBytes, ht]
        refine decide_eq_true ⟨hz.2 ht, ?_⟩
        rw [hc.2 ht]
  · cases ht : id.idType with
    | c25519 =>
        simp only [verifyId, signBytes, ht]
        apply decide_eq_false
        rintro ⟨-, heq⟩
        rw [hc.1] at heq
        have h1 : c25519KeyDerive id.privC25519 ++ data
            = c25519KeyDerive id.privC25519 ++ flipBit data i j := by
          injection heq
        exact flipBit_ne data i j hi (List.append_cancel_left h1).symm
    | p384 =>
        simp only [verifyId, signBytes, ht]
        apply decide_eq_false
        rintro ⟨-, heq⟩
        rw [hc.2 ht] at heq
        have h1 : ecc384KeyDerive id.privP384 ++ data
            = ecc384KeyDerive id.privP384 ++ flipBit data i j := by
          injection heq
        exact flipBit_ne data i j hi (List.append_cancel_left h1).symm
  · cases ht : id.idType with
    | c25519 =>
        have hsig : signBytes id data
            = 0 :: (c25519KeyDerive id.privC25519 ++ data) := by
          simp [signBytes, ht]
        simp only [verifyId, ht]
        apply decide_eq_false
        rintro ⟨-, heq⟩
        rw [hc.1, ← hsig] at heq
        exact flipBit_ne (signBytes id data) k l hk heq
    | p384 =>
        have hsig : signBytes id data
            = 1 :: (ecc384KeyDerive id.privP384 ++ data) := by
          simp [signBytes, ht]
        simp only [verifyId, ht]
        apply decide_eq_false
        rintro ⟨-, heq⟩
        rw [hc.2 ht, ← hsig] at heq
        exact flipBit_ne (signBytes id data) k l hk heq

/-- Witness for claim C3 at a concrete legacy identity signing
`[1, 2, 3]`, flipping bit 0 of byte 0 of the data and of the
signature. -/
theorem identity_sign_verify_bitflip_witness :
    verifyId sampleLegacy [1, 2, 3] (signBytes sampleLegacy [1, 2, 3]) = true
      ∧ verifyId sampleLegacy (flipBit [1, 2, 3] 0 0)
          (signBytes sampleLegacy [1, 2, 3]) = false
      ∧ verifyId sampleLegacy [1, 2, 3]
          (flipBit (signBytes sampleLegacy [1, 2, 3]) 0 0) = false := by
  have h := identity_sign_verify_bitflip sampleLegacy [1, 2, 3] 0 0 0 0 rfl
    (by decide) (by decide) (by decide) (by decide)
  exact ⟨h.2.1, h.2.2.1, h.2.2.2⟩

/-! ### Key-agreement symmetry -/

theorem c25519_dh_symm (privA privB : List Nat) :
    c25519SharedSecret privA (c25519KeyDerive privB)
      = c25519SharedSecret privB (c25519KeyDerive privA) := by
  unfold c25519SharedSecret c25519KeyDerive
  rw [bytesToNat_natToBytesBE, bytesToNat_natToBytesBE]
  rw [powMod_eq, powMod_eq, powMod_eq, powMod_eq]
  have hm1 : c25519G ^ bytesToNat privB % c25519M
      % 256 ^ ZT_C25519_PUBLIC_KEY_LEN
      = c25519G ^ bytesToNat privB % c25519M := by
    apply Nat.mod_eq_of_lt
    calc c25519G ^ bytesToNat privB % c25519M < c25519M :=
          Nat.mod_lt _ (by norm_num [c25519M])
      _ < 256 ^ ZT_C25519_PUBLIC_KEY_LEN := by
          norm_num [c25519M, ZT_C25519_PUBLIC_KEY_LEN]
  have hm2 : c25519G ^ bytesToNat privA % c25519M
      % 256 ^ ZT_C25519_PUBLIC_KEY_LEN
      = c25519G ^ bytesToNat privA % c25519M := by
    apply Nat.mod_eq_of_lt
    calc c25519G ^ bytesToNat privA % c25519M < c25519M :=
          Nat.mod_lt _ (by norm_num [c25519M])
      _ < 256 ^ ZT_C25519_PUBLIC_KEY_LEN := by
          norm_num [c25519M, ZT_C25519_PUBLIC_KEY_LEN]
  rw [hm1, hm2]
  rw [← Nat.pow_mod, ← Nat.pow_mod, ← pow_mul, ← pow_mul, Nat.mul_comm]

theorem ecc384_dh_symm (privA privB : List Nat) :
    ecc384SharedSecret privA (ecc384KeyDerive privB)
      = ecc384SharedSecret privB (ecc384KeyDerive privA) := by
  unfold ecc384SharedSecret ecc384KeyDerive
  rw [bytesToNat_natToBytesBE, bytesToNat_natToBytesBE]
  rw [powMod_eq, powMod_eq, powMod_eq, powMod_eq]
  have hm1 : ecc384G ^ bytesToNat privB % ecc384M
      % 256 ^ ZT_ECC384_PUBLIC_KEY_SIZE
      = ecc384G ^ bytesToNat privB % ecc384M := by
    apply Nat.mod_eq_of_lt
    calc ecc384G ^ bytesToNat privB % ecc384M < ecc384M :=
          Nat.mod_lt _ (by norm_num [ecc384M])
      _ < 256 ^ ZT_ECC384_PUBLIC_KEY_SIZE := by
          norm_num [ecc384M, ZT_ECC384_PUBLIC_KEY_SIZE]
  have hm2 : ecc384G ^ bytesToNat privA % ecc384M
      % 256 ^ ZT_ECC384_PUBLIC_KEY_SIZE
      = ecc384G ^ bytesToNat privA % ecc384M := by
    apply Nat.mod_eq_of_lt
    calc ecc384G ^ bytesToNat privA % ecc384M < ecc384M :=
          Nat.mod_lt _ (by norm_num [ecc384M])
      _ < 256 ^ ZT_ECC384_PUBLIC_KEY_SIZE := by
          norm_num [ecc384M, ZT_ECC384_PUBLIC_KEY_SIZE]
  rw [hm1, hm2]
  rw [← Nat.pow_mod, ← Nat.pow_mod, ← pow_mul, ← pow_mul, Nat.mul_comm]

/-- Claim C4: for two hybrid identities with genuine key pairs, key
agreement is symmetric; for a hybrid/legacy pair it still succeeds, is
symmetric, and the secret is `legacySecret` — a function of the
Curve25519 fields alone. -/
theorem identity_agree_symmetry (a b : Identity)
    (ha : a.hasPrivate = true) (hb : b.hasPrivate = true)
    (hca : pubConsistent a) (hcb : pubConsistent b) :
    (a.idType = .p384 → b.idType = .p384 →
        agreeId a b = agreeId b a ∧ (agreeId a b).isSome = true)
      ∧ (a.idType = .p384 → b.idType = .c25519 →
          agreeId a b = agreeId b a
            ∧ agreeId a b = some (legacySecret a b)
            ∧ legacySecret a b = legacySecret b a
            ∧ (agreeId a b).isSome = true) := by
  constructor
  · intro hta htb
    constructor
    · simp only [agreeId, ha, hb, hta, htb]
      rw [hca.1, hcb.1, hca.2 hta, hcb.2 htb]
      rw [c25519_dh_symm, ecc384_dh_symm]
    · simp [agreeId, ha, hta, htb]
  · intro hta htb
    refine ⟨?_, by simp [agreeId, ha, hta, htb], ?_, by simp [agreeId, ha, hta, htb]⟩
    · simp only [agreeId, ha, hb, hta, htb]
      unfold legacySecret
      rw [hca.1, hcb.1]
      rw [c25519_dh_symm]
    · unfold legacySecret
      rw [hca.1, hcb.1]
      rw [c25519_dh_symm]

/-- Witness for claim C4: a concrete hybrid pair agrees symmetrically,
and a concrete hybrid/legacy pair agrees symmetrically on the
legacy-only secret. -/
theorem identity_agree_symmetry_witness :
    agreeId sampleHybrid sampleHybrid2 = agreeId sampleHybrid2 sampleHybrid
      ∧ agreeId sampleHybrid sampleLegacy2 = agreeId sampleLegacy2 sampleHybrid
      ∧ agreeId sampleHybrid sampleLegacy2
          = some (legacySecret sampleHybrid sampleLegacy2) := by
  have h1 := identity_agree_symmetry sampleHybrid sampleHybrid2 rfl rfl
    (by decide) (by decide)
  have h2 := identity_agree_symmetry sampleHybrid sampleLegacy2 rfl rfl
    (by decide) (by decide)
  exact ⟨(h1.1 rfl rfl).1, (h2.2 rfl rfl).1, (h2.2 rfl rfl).2.1⟩
